import Mathlib

/-!
# STM32 USART3 polling driver (`src/main.c`)

A shallow embedding of the driver in `src/main.c` and the properties of its
initialisation routine and of its blocking transmit / receive primitives.

Conventions of the embedding

* A register holds a 32-bit word, represented by a natural number.  The driver
  only combines words with `|`, `&` and `~`, which never carry out of 32 bits;
  `~` is the 32-bit complement `not32`.
* `char` is the unsigned 8-bit type of the ARM EABI, the ABI of the Cortex-M
  parts whose addresses the source hard-codes: a character is a natural number
  below 256, converting a word to `char` is `% 256`, and converting a `char`
  to a word leaves the number as it is.
* The configuration registers and `TDR` hold what software last stored in
  them.  `ISR` and `RDR` are driven by the hardware: each read of one of them
  is answered by the environment (`World.isr`, `World.rdr`).
* Every register access is appended to `World.trace`, in program order.
-/

namespace UartDriver

/-! ## Registers and machine state -/

/-- The registers named by the three peripheral structures of `src/main.c`:
`RCC_TypeDef` (AHB4ENR, APB1LENR), `GPIO_TypeDef` (MODER, AFR[0], AFR[1]) and
`USART_TypeDef` (CR1, BRR, ISR, RDR, TDR). -/
inductive Reg where
  | AHB4ENR | APB1LENR
  | MODER | AFR0 | AFR1
  | CR1 | BRR | ISR | RDR | TDR
  deriving DecidableEq, Repr

/-- One register access: the register and the word read or written. -/
inductive Access where
  | read (r : Reg) (v : Nat)
  | write (r : Reg) (v : Nat)
  deriving DecidableEq, Repr

/-- The machine as the driver sees it.

* `regs r` is the word last stored in register `r` (the entries of the
  hardware-driven `ISR` and `RDR` are not consulted: their reads are answered
  by `isr` and `rdr`).
* `isr` lists the words that the coming reads of `ISR` return, in order.  A
  run is followed for as long as words are supplied; a busy-wait loop that
  uses them all up is still spinning.
* `rdr k` is the word that the `k`-th coming read of `RDR` returns.
* `trace` is the sequence of register accesses performed so far. -/
structure World where
  regs : Reg → Nat
  isr : List Nat
  rdr : Nat → Nat
  trace : List Access

/-- The register file with register `r` holding `v`. -/
def setReg (f : Reg → Nat) (r : Reg) (v : Nat) : Reg → Nat :=
  fun r' => if r' = r then v else f r'

/-- Read of a register that holds what was last stored in it. -/
def World.load (w : World) (r : Reg) : Nat × World :=
  (w.regs r, { w with trace := w.trace ++ [Access.read r (w.regs r)] })

/-- Write of the word `v` to register `r`. -/
def World.store (w : World) (r : Reg) (v : Nat) : World :=
  { w with regs := setReg w.regs r v, trace := w.trace ++ [Access.write r v] }

/-- The 32-bit complement `~m` of a `uint32_t` word `m`. -/
def not32 (m : Nat) : Nat := (2 ^ 32 - 1) ^^^ (m % 2 ^ 32)

/-- The statement `reg |= m;` : read, or, write back. -/
def orAssign (r : Reg) (m : Nat) (w : World) : World :=
  let (v, w1) := w.load r
  w1.store r (v ||| m)

/-- The statement `reg &= m;` : read, and, write back. -/
def andAssign (r : Reg) (m : Nat) (w : World) : World :=
  let (v, w1) := w.load r
  w1.store r (v &&& m)

/-! ## `UART3_init` -/

/-- The routine `UART3_init` of `src/main.c`, statement by statement. -/
def UART3_init (w : World) : World :=
  -- RCC->AHB4ENR |= (1U << 3);
  let w := orAssign Reg.AHB4ENR (1 <<< 3) w
  -- RCC->APB1LENR |= (1U << 18);
  let w := orAssign Reg.APB1LENR (1 <<< 18) w
  -- GPIOD->MODER &= ~((3U << (8 * 2)) | (3U << (9 * 2)));
  let w := andAssign Reg.MODER (not32 ((3 <<< (8 * 2)) ||| (3 <<< (9 * 2)))) w
  -- GPIOD->MODER |=  ((2U << (8 * 2)) | (2U << (9 * 2)));
  let w := orAssign Reg.MODER ((2 <<< (8 * 2)) ||| (2 <<< (9 * 2))) w
  -- GPIOD->AFR[1] &= ~((0xF << (0 * 4)) | (0xF << (1 * 4)));
  -- (the operand is the int -256, which converts to the word 0xFFFFFF00)
  let w := andAssign Reg.AFR1 (not32 ((0xF <<< (0 * 4)) ||| (0xF <<< (1 * 4)))) w
  -- GPIOD->AFR[1] |=  ((7U << (0 * 4)) | (7U << (1 * 4)));
  let w := orAssign Reg.AFR1 ((7 <<< (0 * 4)) ||| (7 <<< (1 * 4))) w
  -- USART3->BRR = 64000000UL / 115200UL;
  let w := w.store Reg.BRR (64000000 / 115200)
  -- USART3->CR1 |= (1U << 2);
  let w := orAssign Reg.CR1 (1 <<< 2) w
  -- USART3->CR1 |= (1U << 3);
  let w := orAssign Reg.CR1 (1 <<< 3) w
  -- USART3->CR1 |= (1U << 0);
  orAssign Reg.CR1 (1 <<< 0) w

/-- The 2-bit mode field of pin `p` in a `MODER` word. -/
def modeField (v p : Nat) : Nat := (v >>> (2 * p)) &&& 3

/-- The 4-bit alternate-function field number `k` of an `AFR` word
(`AFR[1]` field `k` belongs to pin `8 + k`). -/
def afField (v k : Nat) : Nat := (v >>> (4 * k)) &&& 0xF

/-! ## Blocking transmit and receive -/

/-- How far a call of a blocking routine gets on the supplied `ISR` words.

* `returned v w` : the call returned `v`, leaving the machine in `w`.
* `spinning w` : the call is still inside a busy-wait loop, every supplied
  `ISR` word having been read; `w` is the machine at that point.
* `fault w` : the call read past the end of the supplied string bytes (in C
  the behaviour is undefined from there on). -/
inductive Outcome (α : Type) where
  | returned (val : α) (w : World)
  | spinning (w : World)
  | fault (w : World)

/-- The machine an outcome leaves behind. -/
def Outcome.world {α : Type} : Outcome α → World
  | Outcome.returned _ w => w
  | Outcome.spinning w => w
  | Outcome.fault w => w

/-- Whether the call returned. -/
def Outcome.isReturned {α : Type} : Outcome α → Bool
  | Outcome.returned _ _ => true
  | _ => false

/-- The returned value, when the call returned. -/
def Outcome.val? {α : Type} : Outcome α → Option α
  | Outcome.returned v _ => some v
  | _ => none

/-- The busy-wait loop `while (!(USART3->ISR & mask));` run on the `ISR` words
`l`: each iteration reads `ISR` once and leaves the loop as soon as the word
read has a bit of `mask` set. -/
def waitFlag (mask : Nat) : List Nat → World → Outcome Unit
  | [], w => Outcome.spinning { w with isr := [] }
  | v :: rest, w =>
      let w1 := { w with isr := rest, trace := w.trace ++ [Access.read Reg.ISR v] }
      if v &&& mask = 0 then waitFlag mask rest w1 else Outcome.returned () w1

/-- Read of the hardware-driven register `RDR`. -/
def World.readRDR (w : World) : Nat × World :=
  (w.rdr 0, { w with rdr := fun k => w.rdr (k + 1),
                     trace := w.trace ++ [Access.read Reg.RDR (w.rdr 0)] })

/-- The routine `UART3_send_char` of `src/main.c`:
`while (!(USART3->ISR & (1U << 7))); USART3->TDR = c;` -/
def UART3_send_char (c : Nat) (w : World) : Outcome Unit :=
  match waitFlag (1 <<< 7) w.isr w with
  | Outcome.returned _ w1 => Outcome.returned () (w1.store Reg.TDR c)
  | Outcome.spinning w1 => Outcome.spinning w1
  | Outcome.fault w1 => Outcome.fault w1

/-- The routine `UART3_send_string` of `src/main.c`:
`while (*str) { UART3_send_char(*str++); }`.  The argument lists the bytes
stored from `str` onwards. -/
def UART3_send_string : List Nat → World → Outcome Unit
  | [], w => Outcome.fault w
  | c :: rest, w =>
      if c = 0 then Outcome.returned () w
      else
        match UART3_send_char c w with
        | Outcome.returned _ w1 => UART3_send_string rest w1
        | Outcome.spinning w1 => Outcome.spinning w1
        | Outcome.fault w1 => Outcome.fault w1

/-- The routine `UART3_receive_char` of `src/main.c`:
`while (!(USART3->ISR & (1U << 5))); return USART3->RDR;`
The word read is converted to the return type `char`. -/
def UART3_receive_char (w : World) : Outcome Nat :=
  match waitFlag (1 <<< 5) w.isr w with
  | Outcome.returned _ w1 =>
      let (v, w2) := w1.readRDR
      Outcome.returned (v % 256) w2
  | Outcome.spinning w1 => Outcome.spinning w1
  | Outcome.fault w1 => Outcome.fault w1

/-! ## `main` -/

/-- The loop `while (1) { char c = UART3_receive_char(); UART3_send_char(c); }`
of `main`, followed for at most `fuel` iterations; the result is the machine
reached when the iterations are done or a call is left spinning. -/
def echoLoop : Nat → World → World
  | 0, w => w
  | fuel + 1, w =>
      match UART3_receive_char w with
      | Outcome.returned c w1 =>
          match UART3_send_char c w1 with
          | Outcome.returned _ w2 => echoLoop fuel w2
          | o => o.world
      | o => o.world

/-- The bytes of the string literal `"Hello IEE4!\r\n"`, terminator included. -/
def greeting : List Nat :=
  [72, 101, 108, 108, 111, 32, 73, 69, 69, 52, 33, 13, 10, 0]

/-- The function `main` of `src/main.c`, its endless loop followed for at most
`fuel` iterations. -/
def main (fuel : Nat) (w : World) : World :=
  let w := UART3_init w
  match UART3_send_string greeting w with
  | Outcome.returned _ w1 => echoLoop fuel w1
  | o => o.world

/-! ## Reading a trace -/

/-- The words written to `TDR`, in order. -/
def tdrWrites (t : List Access) : List Nat :=
  t.filterMap fun a =>
    match a with
    | Access.write Reg.TDR v => some v
    | _ => none

/-- The words read from `RDR`, in order. -/
def rdrReads (t : List Access) : List Nat :=
  t.filterMap fun a =>
    match a with
    | Access.read Reg.RDR v => some v
    | _ => none

/-- The words read from `ISR`, in order. -/
def isrReads (t : List Access) : List Nat :=
  t.filterMap fun a =>
    match a with
    | Access.read Reg.ISR v => some v
    | _ => none

/-- The accesses of a trace other than the polls of `ISR`, in order. -/
def dataAccesses (t : List Access) : List Access :=
  t.filter fun a =>
    match a with
    | Access.read Reg.ISR _ => false
    | _ => true

/-- The trace of polling `ISR` once for each word of `l`. -/
def polls (l : List Nat) : List Access := l.map (Access.read Reg.ISR)

/-- The trace of one character sent: polls that see the flag clear, the poll
that sees it set, the write. -/
def sendTrace (pre : List Nat) (v c : Nat) : List Access :=
  polls pre ++ [Access.read Reg.ISR v, Access.write Reg.TDR c]

/-- The characters of the string stored in `str`: the bytes before the first
zero byte. -/
def chars (str : List Nat) : List Nat := str.takeWhile fun c => c != 0

/-- The writes of a trace, in order: register and word. -/
def writesOf (t : List Access) : List (Reg × Nat) :=
  t.filterMap fun a =>
    match a with
    | Access.write r v => some (r, v)
    | Access.read _ _ => none

/-- Every write to `TDR` in the trace comes directly after a read of `ISR`
whose bit 7 (transmit-empty) is set. -/
def GuardedWrites (t : List Access) : Prop :=
  ∀ i c, t[i]? = some (Access.write Reg.TDR c) →
    ∃ v, 0 < i ∧ t[i - 1]? = some (Access.read Reg.ISR v) ∧ v.testBit 7 = true

/-- The trace holds nothing but reads of `ISR` and writes to `TDR`. -/
def OnlyPollsAndSends (t : List Access) : Prop :=
  ∀ a ∈ t, (∃ v, a = Access.read Reg.ISR v) ∨ ∃ c, a = Access.write Reg.TDR c

/-! ## The echo scenario -/

/-- One byte of the echo scenario, as the driver gets to see it: the status
words polled until the byte has arrived, the byte, and the status words polled
until the transmitter takes the echo. -/
structure Exchange where
  rxWait : List Nat
  rxReady : Nat
  byte : Nat
  txWait : List Nat
  txReady : Nat

/-- The status words fit the scenario: receive-not-empty (bit 5) shows first in
`rxReady`, transmit-empty (bit 7) shows first in `txReady`, and the byte is a
byte. -/
@[reducible]
def Exchange.wellFormed (e : Exchange) : Prop :=
  (∀ v ∈ e.rxWait, v.testBit 5 = false) ∧ e.rxReady.testBit 5 = true
  ∧ (∀ v ∈ e.txWait, v.testBit 7 = false) ∧ e.txReady.testBit 7 = true
  ∧ e.byte < 256

/-- The status words of a sequence of exchanges, followed by the words `idle`
polled once the peer has stopped sending. -/
def exchangeIsr : List Exchange → List Nat → List Nat
  | [], idle => idle
  | e :: es, idle =>
      e.rxWait ++ e.rxReady :: (e.txWait ++ e.txReady :: exchangeIsr es idle)

/-- The content of `RDR` at its successive reads: the bytes `bs`, then `f`. -/
def feed : List Nat → (Nat → Nat) → Nat → Nat
  | [], f => f
  | b :: bs, f => fun k =>
      match k with
      | 0 => b
      | k + 1 => feed bs f k

/-- Each byte read from `RDR` and then written to `TDR`, byte after byte. -/
def echoData : List Nat → List Access
  | [] => []
  | b :: bs => Access.read Reg.RDR b :: Access.write Reg.TDR b :: echoData bs

/-! ## The register structures as declared -/

/-- One member of a peripheral structure of `src/main.c`: whether it is
declared `volatile`, and the 32-bit words it spans in order, each the register
it holds or `none` for a reserved word.  The member `uint32_t RESERVED[56]`
spans 56 reserved words, `volatile uint32_t AFR[2]` the words of `AFR[0]`
and `AFR[1]`. -/
structure Member where
  isVolatile : Bool
  words : List (Option Reg)

/-- The declaration of `RCC_TypeDef`, member by member. -/
def RCC_TypeDef : List Member :=
  [ { isVolatile := false, words := List.replicate 56 none },    -- uint32_t RESERVED[56];
    { isVolatile := false, words := [some Reg.AHB4ENR] },        -- uint32_t AHB4ENR;
    { isVolatile := false, words := [none] },                    -- uint32_t RESERVED1;
    { isVolatile := false, words := [some Reg.APB1LENR] } ]      -- uint32_t APB1LENR;

/-- The declaration of `GPIO_TypeDef`, member by member. -/
def GPIO_TypeDef : List Member :=
  [ { isVolatile := true, words := [some Reg.MODER] },               -- volatile uint32_t MODER;
    { isVolatile := true, words := List.replicate 7 none },          -- volatile uint32_t RESERVED_1[7];
    { isVolatile := true, words := [some Reg.AFR0, some Reg.AFR1] } ] -- volatile uint32_t AFR[2];

/-- The declaration of `USART_TypeDef`, member by member. -/
def USART_TypeDef : List Member :=
  [ { isVolatile := true, words := [some Reg.CR1] },          -- volatile uint32_t CR1;
    { isVolatile := true, words := List.replicate 2 none },   -- volatile uint32_t RESERVED_1[2];
    { isVolatile := true, words := [some Reg.BRR] },          -- volatile uint32_t BRR;
    { isVolatile := true, words := List.replicate 3 none },   -- volatile uint32_t RESERVED_2[3];
    { isVolatile := true, words := [some Reg.ISR] },          -- volatile uint32_t ISR;
    { isVolatile := true, words := [none] },                  -- volatile uint32_t RESERVED_3;
    { isVolatile := true, words := [some Reg.RDR] },          -- volatile uint32_t RDR;
    { isVolatile := true, words := [some Reg.TDR] } ]         -- volatile uint32_t TDR;

/-- The words of a structure in declaration order, nothing between them. -/
def layoutWords : List Member → List (Option Reg)
  | [] => []
  | m :: ms => m.words ++ layoutWords ms

/-- The position of register `r` in a list of words. -/
def wordIndex (r : Reg) : List (Option Reg) → Option Nat
  | [] => none
  | x :: xs => if x = some r then some 0 else (wordIndex r xs).map (· + 1)

/-- The byte offset of register `r` in a structure whose members are 4-byte
words laid out in declaration order without padding. -/
def byteOffset (s : List Member) (r : Reg) : Option Nat :=
  (wordIndex r (layoutWords s)).map (4 * ·)

/-- Whether register `r` is a word of a member declared `volatile` in
structure `s` (`none` when `s` has no such register). -/
def volatileIn : List Member → Reg → Option Bool
  | [], _ => none
  | m :: ms, r => if some r ∈ m.words then some m.isVolatile else volatileIn ms r

/-- The structure through which the driver reaches register `r`:
`RCC`, `GPIOD` or `USART3`. -/
def structOf : Reg → List Member
  | Reg.AHB4ENR | Reg.APB1LENR => RCC_TypeDef
  | Reg.MODER | Reg.AFR0 | Reg.AFR1 => GPIO_TypeDef
  | Reg.CR1 | Reg.BRR | Reg.ISR | Reg.RDR | Reg.TDR => USART_TypeDef

/-- Whether the field behind register `r` is declared `volatile`. -/
def declaredVolatile (r : Reg) : Bool :=
  (volatileIn (structOf r) r).getD false

/-! ## More on traces -/

/-- The register an access goes to. -/
def Access.reg : Access → Reg
  | Access.read r _ => r
  | Access.write r _ => r

/-- The registers written in a trace, in order. -/
def writtenRegs (t : List Access) : List Reg := (writesOf t).map Prod.fst

/-- The words written to register `r` in a trace, in order. -/
def writesTo (r : Reg) (t : List Access) : List Nat :=
  ((writesOf t).filter fun p => p.1 = r).map Prod.snd

/-- An access with the word read from `ISR` blanked out: what is left is the
kind of access, the register, and every word other than a status word. -/
def Access.eraseIsr : Access → Access
  | Access.read Reg.ISR _ => Access.read Reg.ISR 0
  | a => a

/-- A trace with the status words blanked out. -/
def eraseIsr (t : List Access) : List Access := t.map Access.eraseIsr

/-- The accesses `UART3_init` performs on a machine whose registers hold
`regs`, in program order: each read returns what the register holds at that
point. -/
def initTrace (regs : Reg → Nat) : List Access :=
  [ Access.read Reg.AHB4ENR (regs Reg.AHB4ENR),
    Access.write Reg.AHB4ENR (regs Reg.AHB4ENR ||| 8),
    Access.read Reg.APB1LENR (regs Reg.APB1LENR),
    Access.write Reg.APB1LENR (regs Reg.APB1LENR ||| 0x40000),
    Access.read Reg.MODER (regs Reg.MODER),
    Access.write Reg.MODER (regs Reg.MODER &&& 0xFFF0FFFF),
    Access.read Reg.MODER (regs Reg.MODER &&& 0xFFF0FFFF),
    Access.write Reg.MODER ((regs Reg.MODER &&& 0xFFF0FFFF) ||| 0xA0000),
    Access.read Reg.AFR1 (regs Reg.AFR1),
    Access.write Reg.AFR1 (regs Reg.AFR1 &&& 0xFFFFFF00),
    Access.read Reg.AFR1 (regs Reg.AFR1 &&& 0xFFFFFF00),
    Access.write Reg.AFR1 ((regs Reg.AFR1 &&& 0xFFFFFF00) ||| 0x77),
    Access.write Reg.BRR 555,
    Access.read Reg.CR1 (regs Reg.CR1),
    Access.write Reg.CR1 (regs Reg.CR1 ||| 4),
    Access.read Reg.CR1 (regs Reg.CR1 ||| 4),
    Access.write Reg.CR1 ((regs Reg.CR1 ||| 4) ||| 8),
    Access.read Reg.CR1 ((regs Reg.CR1 ||| 4) ||| 8),
    Access.write Reg.CR1 (((regs Reg.CR1 ||| 4) ||| 8) ||| 1) ]

/-- Two machines that differ at most in the status words: same registers,
same words to come from `RDR`, same trace once the status words are blanked
out, and status words to come that agree on bit `k`. -/
def AgreeOn (k : Nat) (w1 w2 : World) : Prop :=
  w1.regs = w2.regs ∧ w1.rdr = w2.rdr ∧ eraseIsr w1.trace = eraseIsr w2.trace
  ∧ w1.isr.map (fun v => v.testBit k) = w2.isr.map (fun v => v.testBit k)

/-- The characters of the greeting: `"Hello IEE4!\r\n"` without its
terminator. -/
def greetingChars : List Nat :=
  [72, 101, 108, 108, 111, 32, 73, 69, 69, 52, 33, 13, 10]

/-! ## Sample machines -/

/-- Status words of a sample run: two polls that show neither flag, one that
shows only receive-not-empty, one that shows only transmit-empty, and one
more. -/
def sampleIsr : List Nat := [0x00, 0x10, 0x20, 0x80, 0x07]

/-- A machine with set bits all over its configuration registers, the status
words `sampleIsr` ahead of it and the bytes of `"Hi\r\n"` arriving in `RDR`. -/
def sampleWorld : World where
  regs := fun r =>
    match r with
    | Reg.AHB4ENR => 0x00000001
    | Reg.APB1LENR => 0x80000000
    | Reg.MODER => 0xFFFFFFFF
    | Reg.AFR0 => 0x12345678
    | Reg.AFR1 => 0xFFFFFFFF
    | Reg.CR1 => 0x00001000
    | Reg.BRR => 0x0000FFFF
    | _ => 0
  isr := sampleIsr
  rdr := fun k => [72, 105, 13, 10].getD k 0
  trace := []

/-- The peer sends `"Hi\r\n"`; the status register shows various waits. -/
def sampleExchanges : List Exchange :=
  [ { rxWait := [0x00, 0x80], rxReady := 0xA0, byte := 72, txWait := [0x20], txReady := 0x80 },
    { rxWait := [], rxReady := 0x20, byte := 105, txWait := [0x00, 0x00], txReady := 0xC0 },
    { rxWait := [0xC0], rxReady := 0xE0, byte := 13, txWait := [], txReady := 0xE0 },
    { rxWait := [], rxReady := 0x20, byte := 10, txWait := [], txReady := 0x80 } ]

/-- The sample machine with status words that show transmit-empty at the
second and at the fourth poll. -/
def txWorld : World :=
  { sampleWorld with isr := [0x00, 0x80, 0x20, 0xC0, 0x00] }

/-- The sample machine with transmit-empty showing at each of the next
thirteen polls, then a byte arriving and being taken. -/
def greetingWorld : World :=
  { sampleWorld with isr := List.replicate 13 0x80 ++ [0x00, 0x20, 0x80, 0x00] }

/-- The sample machine with the word `0x141` (bit 8 set, low byte `'A'`) in
`RDR` and receive-not-empty showing at the first poll. -/
def wideRdrWorld : World :=
  { sampleWorld with isr := [0x20], rdr := fun _ => 0x141 }


/-! ## Bit-level facts -/

theorem testBit_small (c i k : Nat) (hc : c < 2 ^ k) (hi : k ≤ i) : c.testBit i = false :=
  Nat.testBit_lt_two_pow (lt_of_lt_of_le hc (Nat.pow_le_pow_right (by norm_num) hi))

theorem testBit_lor_two_pow (x k i : Nat) :
    (x ||| 2 ^ k).testBit i = (x.testBit i || decide (i = k)) := by
  rw [Nat.testBit_lor, Nat.testBit_two_pow]
  simp [eq_comm]

/-- Clearing a field and setting it again changes nothing the second time. -/
theorem clear_set_idem (x m a : Nat) :
    ((((x &&& m) ||| a) &&& m) ||| a) = ((x &&& m) ||| a) := by
  apply Nat.eq_of_testBit_eq
  intro i
  simp only [Nat.testBit_lor, Nat.testBit_land]
  cases x.testBit i <;> cases m.testBit i <;> cases a.testBit i <;> rfl

theorem lor_idem (x a : Nat) : (x ||| a) ||| a = x ||| a := by
  apply Nat.eq_of_testBit_eq
  intro i
  simp only [Nat.testBit_lor]
  cases x.testBit i <;> cases a.testBit i <;> rfl

theorem modeField_other (x p : Nat) (hp : p < 16) (h8 : p ≠ 8) (h9 : p ≠ 9) :
    modeField ((x &&& 0xFFF0FFFF) ||| 0xA0000) p = modeField x p := by
  unfold modeField
  apply Nat.eq_of_testBit_eq
  intro i
  simp only [Nat.testBit_land, Nat.testBit_lor, Nat.testBit_shiftRight]
  by_cases hi : i < 2
  · interval_cases p <;> interval_cases i <;>
      first
        | contradiction
        | (generalize x.testBit _ = b; cases b <;> decide)
  · simp [testBit_small 3 i 2 (by norm_num) (by omega)]

theorem modeField_tx_rx (x p : Nat) (hp : p = 8 ∨ p = 9) :
    modeField ((x &&& 0xFFF0FFFF) ||| 0xA0000) p = 2 := by
  unfold modeField
  apply Nat.eq_of_testBit_eq
  intro i
  simp only [Nat.testBit_land, Nat.testBit_lor, Nat.testBit_shiftRight]
  by_cases hi : i < 2
  · rcases hp with rfl | rfl <;> interval_cases i <;>
      (generalize x.testBit _ = b; cases b <;> decide)
  · simp [testBit_small 3 i 2 (by norm_num) (by omega),
      testBit_small 2 i 2 (by norm_num) (by omega)]

theorem afField_other (x k : Nat) (h2 : 2 ≤ k) (hk : k < 8) :
    afField ((x &&& 0xFFFFFF00) ||| 0x77) k = afField x k := by
  unfold afField
  apply Nat.eq_of_testBit_eq
  intro i
  simp only [Nat.testBit_land, Nat.testBit_lor, Nat.testBit_shiftRight]
  by_cases hi : i < 4
  · interval_cases k <;> interval_cases i <;>
      (generalize x.testBit _ = b; cases b <;> decide)
  · simp [testBit_small 15 i 4 (by norm_num) (by omega)]

theorem afField_tx_rx (x k : Nat) (hk : k < 2) :
    afField ((x &&& 0xFFFFFF00) ||| 0x77) k = 7 := by
  unfold afField
  apply Nat.eq_of_testBit_eq
  intro i
  simp only [Nat.testBit_land, Nat.testBit_lor, Nat.testBit_shiftRight]
  by_cases hi : i < 4
  · interval_cases k <;> interval_cases i <;>
      (generalize x.testBit _ = b; cases b <;> decide)
  · simp [testBit_small 15 i 4 (by norm_num) (by omega),
      testBit_small 7 i 4 (by norm_num) (by omega)]

/-! ## The register file after `UART3_init` -/

/-- The word each register holds after `UART3_init`, in terms of the word it
held before. -/
theorem init_regs (w : World) :
    (UART3_init w).regs = fun r => match r with
      | Reg.AHB4ENR => w.regs Reg.AHB4ENR ||| 8
      | Reg.APB1LENR => w.regs Reg.APB1LENR ||| 0x40000
      | Reg.MODER => (w.regs Reg.MODER &&& 0xFFF0FFFF) ||| 0xA0000
      | Reg.AFR0 => w.regs Reg.AFR0
      | Reg.AFR1 => (w.regs Reg.AFR1 &&& 0xFFFFFF00) ||| 0x77
      | Reg.CR1 => ((w.regs Reg.CR1 ||| 4) ||| 8) ||| 1
      | Reg.BRR => 555
      | Reg.ISR => w.regs Reg.ISR
      | Reg.RDR => w.regs Reg.RDR
      | Reg.TDR => w.regs Reg.TDR := by
  funext r
  cases r <;>
    simp [UART3_init, orAssign, andAssign, World.load, World.store, setReg, not32]

/-- Running `UART3_init` on an initialised machine leaves every register as it
is. -/
theorem init_regs_twice (w : World) :
    (UART3_init (UART3_init w)).regs = (UART3_init w).regs := by
  rw [init_regs (UART3_init w), init_regs w]
  funext r
  cases r <;> simp only [lor_idem, clear_set_idem]
  -- CR1: three successive ors, repeated
  apply Nat.eq_of_testBit_eq
  intro i
  simp only [Nat.testBit_lor]
  cases (w.regs Reg.CR1).testBit i <;> cases Nat.testBit 4 i <;>
    cases Nat.testBit 8 i <;> cases Nat.testBit 1 i <;> rfl

theorem init_iterate_regs (w : World) (n : Nat) :
    (UART3_init^[n + 1] w).regs = (UART3_init w).regs := by
  induction n with
  | zero => rfl
  | succ k ih =>
    rw [Function.iterate_succ_apply', init_regs (UART3_init^[k + 1] w), ih,
      ← init_regs (UART3_init w)]
    exact init_regs_twice w

/-! ## The busy-wait loop -/

/-- The loop test `v & (1 << k)` is zero exactly when bit `k` of `v` is clear. -/
theorem land_flag_eq_zero_iff (v k : Nat) : v &&& (1 <<< k) = 0 ↔ v.testBit k = false := by
  rw [Nat.one_shiftLeft, Nat.and_two_pow]
  cases v.testBit k <;> simp

theorem polls_append (a b : List Nat) : polls (a ++ b) = polls a ++ polls b := by
  simp [polls]

theorem polls_length (l : List Nat) : (polls l).length = l.length := by
  simp [polls]

/-- While no word has the flag, the loop reads every supplied word and is
still spinning. -/
theorem waitFlag_clear (k : Nat) (l : List Nat) (w : World)
    (h : ∀ v ∈ l, v.testBit k = false) :
    waitFlag (1 <<< k) l w
      = Outcome.spinning { w with isr := [], trace := w.trace ++ polls l } := by
  induction l generalizing w with
  | nil => simp [waitFlag, polls]
  | cons v rest ih =>
    have hv : v &&& (1 <<< k) = 0 :=
      (land_flag_eq_zero_iff v k).2 (h v (List.mem_cons_self _ _))
    rw [waitFlag]
    simp only [hv, if_true]
    rw [ih _ (fun x hx => h x (List.mem_cons_of_mem _ hx))]
    simp [polls]

/-- The loop ends at the first word that has the flag, having read the words
up to and including that one. -/
theorem waitFlag_hit (k : Nat) (pre : List Nat) (v : Nat) (rest : List Nat) (w : World)
    (h : ∀ x ∈ pre, x.testBit k = false) (hv : v.testBit k = true) :
    waitFlag (1 <<< k) (pre ++ v :: rest) w
      = Outcome.returned ()
          { w with isr := rest, trace := w.trace ++ polls pre ++ [Access.read Reg.ISR v] } := by
  induction pre generalizing w with
  | nil =>
    have hv0 : ¬ v &&& (1 <<< k) = 0 := by
      rw [land_flag_eq_zero_iff]; simp [hv]
    simp [waitFlag, polls, hv0]
  | cons x pre ih =>
    have hx : x &&& (1 <<< k) = 0 :=
      (land_flag_eq_zero_iff x k).2 (h x (List.mem_cons_self _ _))
    rw [List.cons_append, waitFlag]
    simp only [hx, if_true]
    rw [ih _ (fun y hy => h y (List.mem_cons_of_mem _ hy))]
    simp [polls]

/-- Every list of status words either never shows the flag or splits at the
first word that shows it. -/
theorem split_at_flag (k : Nat) (l : List Nat) :
    (∀ v ∈ l, v.testBit k = false)
    ∨ ∃ pre v rest, l = pre ++ v :: rest ∧ (∀ x ∈ pre, x.testBit k = false)
        ∧ v.testBit k = true := by
  induction l with
  | nil => left; simp
  | cons a l ih =>
    by_cases ha : a.testBit k = true
    · right; exact ⟨[], a, l, rfl, by simp, ha⟩
    · have ha0 : a.testBit k = false := by simpa using ha
      rcases ih with h | ⟨pre, v, rest, rfl, hpre, hv⟩
      · left
        intro x hx
        rcases List.mem_cons.1 hx with rfl | hx
        · exact ha0
        · exact h x hx
      · right
        refine ⟨a :: pre, v, rest, rfl, ?_, hv⟩
        intro x hx
        rcases List.mem_cons.1 hx with rfl | hx
        · exact ha0
        · exact hpre x hx

/-! ## One character -/

theorem send_char_clear (c : Nat) (w : World) (l : List Nat)
    (h : ∀ v ∈ l, v.testBit 7 = false) :
    UART3_send_char c { w with isr := l }
      = Outcome.spinning { w with isr := [], trace := w.trace ++ polls l } := by
  unfold UART3_send_char
  rw [waitFlag_clear 7 l _ h]

theorem send_char_hit (c : Nat) (w : World) (pre : List Nat) (v : Nat) (rest : List Nat)
    (h : ∀ x ∈ pre, x.testBit 7 = false) (hv : v.testBit 7 = true) :
    UART3_send_char c { w with isr := pre ++ v :: rest }
      = Outcome.returned ()
          { w with regs := setReg w.regs Reg.TDR c, isr := rest,
                   trace := w.trace ++ polls pre
                     ++ [Access.read Reg.ISR v, Access.write Reg.TDR c] } := by
  unfold UART3_send_char
  rw [waitFlag_hit 7 pre v rest _ h hv]
  simp [World.store]

theorem receive_char_clear (w : World) (l : List Nat)
    (h : ∀ v ∈ l, v.testBit 5 = false) :
    UART3_receive_char { w with isr := l }
      = Outcome.spinning { w with isr := [], trace := w.trace ++ polls l } := by
  unfold UART3_receive_char
  rw [waitFlag_clear 5 l _ h]

theorem receive_char_hit (w : World) (pre : List Nat) (v : Nat) (rest : List Nat)
    (h : ∀ x ∈ pre, x.testBit 5 = false) (hv : v.testBit 5 = true) :
    UART3_receive_char { w with isr := pre ++ v :: rest }
      = Outcome.returned (w.rdr 0 % 256)
          { w with isr := rest, rdr := fun k => w.rdr (k + 1),
                   trace := w.trace ++ polls pre
                     ++ [Access.read Reg.ISR v, Access.read Reg.RDR (w.rdr 0)] } := by
  unfold UART3_receive_char
  rw [waitFlag_hit 5 pre v rest _ h hv]
  simp [World.readRDR]

/-! ## Initialisation: the claims -/

/-- C1 (masking invariant of the clock enable): after `UART3_init` the AHB4ENR
word is its old value with bit 3 set and the APB1LENR word is its old value
with bit 18 set; bit 3 resp. bit 18 is set afterwards and every other bit of
the two enable words has the value it had before. -/
theorem C1_clock_enable_masking (w : World) :
    (UART3_init w).regs Reg.AHB4ENR = w.regs Reg.AHB4ENR ||| 2 ^ 3
    ∧ (UART3_init w).regs Reg.APB1LENR = w.regs Reg.APB1LENR ||| 2 ^ 18
    ∧ ((UART3_init w).regs Reg.AHB4ENR).testBit 3 = true
    ∧ ((UART3_init w).regs Reg.APB1LENR).testBit 18 = true
    ∧ (∀ i, i ≠ 3 →
        ((UART3_init w).regs Reg.AHB4ENR).testBit i = (w.regs Reg.AHB4ENR).testBit i)
    ∧ (∀ i, i ≠ 18 →
        ((UART3_init w).regs Reg.APB1LENR).testBit i
          = (w.regs Reg.APB1LENR).testBit i) := by
  have hA : (UART3_init w).regs Reg.AHB4ENR = w.regs Reg.AHB4ENR ||| 2 ^ 3 := by
    rw [init_regs]; norm_num
  have hB : (UART3_init w).regs Reg.APB1LENR = w.regs Reg.APB1LENR ||| 2 ^ 18 := by
    rw [init_regs]; norm_num
  refine ⟨hA, hB, ?_, ?_, ?_, ?_⟩
  · rw [hA, testBit_lor_two_pow]; simp
  · rw [hB, testBit_lor_two_pow]; simp
  · intro i hi
    rw [hA, testBit_lor_two_pow]; simp [hi]
  · intro i hi
    rw [hB, testBit_lor_two_pow]; simp [hi]

/-- C2 (read-modify-write invariant of the pin configuration): after
`UART3_init` the mode fields of pins 8 and 9 are 2 and the AFR[1] fields of
pins 8 and 9 (fields 0 and 1) are 7, whatever they held before; the mode
fields of the other fourteen pins, the AFR[1] fields of pins 10 to 15 (fields
2 to 7) and the whole of AFR[0] are as before. -/
theorem C2_pin_configuration (w : World) :
    modeField ((UART3_init w).regs Reg.MODER) 8 = 2
    ∧ modeField ((UART3_init w).regs Reg.MODER) 9 = 2
    ∧ afField ((UART3_init w).regs Reg.AFR1) 0 = 7
    ∧ afField ((UART3_init w).regs Reg.AFR1) 1 = 7
    ∧ (∀ p, p < 16 → p ≠ 8 → p ≠ 9 →
        modeField ((UART3_init w).regs Reg.MODER) p = modeField (w.regs Reg.MODER) p)
    ∧ (∀ k, 2 ≤ k → k < 8 →
        afField ((UART3_init w).regs Reg.AFR1) k = afField (w.regs Reg.AFR1) k)
    ∧ (UART3_init w).regs Reg.AFR0 = w.regs Reg.AFR0 := by
  rw [init_regs]
  exact ⟨modeField_tx_rx _ 8 (Or.inl rfl), modeField_tx_rx _ 9 (Or.inr rfl),
    afField_tx_rx _ 0 (by norm_num), afField_tx_rx _ 1 (by norm_num),
    fun p hp h8 h9 => modeField_other _ p hp h8 h9,
    fun k h2 hk => afField_other _ k h2 hk, rfl⟩

/-- C3 (baud divisor): whatever BRR held before, after `UART3_init` it holds
the integer quotient of 64,000,000 by 115,200, which is 555 (and 555 is the
floor of that quotient: 555 * 115200 ≤ 64000000 < 556 * 115200). -/
theorem C3_baud_divisor (w : World) :
    (UART3_init w).regs Reg.BRR = 64000000 / 115200
    ∧ (UART3_init w).regs Reg.BRR = 555
    ∧ 555 * 115200 ≤ 64000000 ∧ 64000000 < (555 + 1) * 115200 := by
  rw [init_regs]
  exact ⟨by norm_num, rfl, by norm_num, by norm_num⟩

/-- C4 (idempotent configuration): for every machine `w` and every `n ≥ 1`,
running `UART3_init` `n` times in sequence leaves the same register file as
running it once; in particular running it twice does. -/
theorem C4_init_idempotent (w : World) (n : Nat) (hn : 1 ≤ n) :
    (UART3_init^[n] w).regs = (UART3_init w).regs
    ∧ (UART3_init (UART3_init w)).regs = (UART3_init w).regs := by
  obtain ⟨k, rfl⟩ : ∃ k, n = k + 1 := ⟨n - 1, by omega⟩
  exact ⟨init_iterate_regs w k, init_regs_twice w⟩

/-! ## One character: the claims -/

theorem world_eq_of_isr (w : World) (l : List Nat) (h : w.isr = l) :
    w = { w with isr := l } := by
  cases w; cases h; rfl

theorem takeWhile_clear_split (k : Nat) (pre : List Nat) (v : Nat) (rest : List Nat)
    (h : ∀ x ∈ pre, x.testBit k = false) (hv : v.testBit k = true) :
    (pre ++ v :: rest).takeWhile (fun x => !x.testBit k) = pre := by
  induction pre with
  | nil => simp [List.takeWhile, hv]
  | cons a pre ih =>
    have ha : a.testBit k = false := h a (List.mem_cons_self _ _)
    simp [List.takeWhile, ha, ih (fun y hy => h y (List.mem_cons_of_mem _ hy))]

theorem tdrWrites_polls (l : List Nat) : tdrWrites (polls l) = [] := by
  simp [polls, tdrWrites]

theorem writesOf_polls (l : List Nat) : writesOf (polls l) = [] := by
  simp [polls, writesOf]

theorem rdrReads_polls (l : List Nat) : rdrReads (polls l) = [] := by
  simp [polls, rdrReads]

theorem writesOf_polls_append (l : List Nat) (t : List Access) :
    writesOf (polls l ++ t) = writesOf t := by
  simp [polls, writesOf]

theorem rdrReads_polls_append (l : List Nat) (t : List Access) :
    rdrReads (polls l ++ t) = rdrReads t := by
  simp [polls, rdrReads]

/-- C7 (blocking send of one character): let `pre` be status words that all
have bit 7 clear.  On `pre` alone `UART3_send_char c` is still spinning, having
only polled `ISR` (no write, no register changed).  When the next status word
`v` has bit 7 set, the call returns after polling `pre` and `v` and then
writing `c` to `TDR`: that write is its only write, and `TDR` is the only
register whose content changes. -/
theorem C7_send_char_blocking (c : Nat) (w : World) (pre : List Nat)
    (hpre : ∀ x ∈ pre, x.testBit 7 = false) :
    UART3_send_char c { w with isr := pre }
        = Outcome.spinning { w with isr := [], trace := w.trace ++ polls pre }
    ∧ writesOf (polls pre) = []
    ∧ ∀ v rest, v.testBit 7 = true →
        UART3_send_char c { w with isr := pre ++ v :: rest }
          = Outcome.returned ()
              { w with regs := setReg w.regs Reg.TDR c, isr := rest,
                       trace := w.trace ++ polls pre
                         ++ [Access.read Reg.ISR v, Access.write Reg.TDR c] }
        ∧ writesOf (polls pre ++ [Access.read Reg.ISR v, Access.write Reg.TDR c])
            = [(Reg.TDR, c)] :=
  ⟨send_char_clear c w pre hpre, writesOf_polls pre, fun v rest hv =>
    ⟨send_char_hit c w pre v rest hpre hv, by
      rw [writesOf_polls_append]; rfl⟩⟩

/-- C8, as amended (blocking receive of one character): let `pre` be status
words that all have bit 5 clear.  On `pre` alone `UART3_receive_char` is still
spinning, having only polled `ISR` (`RDR` is not read).  When the next status
word `v` has bit 5 set, the call returns after polling `pre` and `v` and then
reading `RDR` once; the character returned is the low 8 bits of the word `RDR`
holds at that read, which is that word itself when it is below 256. -/
theorem C8_receive_char_blocking (w : World) (pre : List Nat)
    (hpre : ∀ x ∈ pre, x.testBit 5 = false) :
    UART3_receive_char { w with isr := pre }
        = Outcome.spinning { w with isr := [], trace := w.trace ++ polls pre }
    ∧ rdrReads (polls pre) = []
    ∧ ∀ v rest, v.testBit 5 = true →
        UART3_receive_char { w with isr := pre ++ v :: rest }
          = Outcome.returned (w.rdr 0 % 256)
              { w with isr := rest, rdr := fun k => w.rdr (k + 1),
                       trace := w.trace ++ polls pre
                         ++ [Access.read Reg.ISR v, Access.read Reg.RDR (w.rdr 0)] }
        ∧ rdrReads (polls pre ++ [Access.read Reg.ISR v, Access.read Reg.RDR (w.rdr 0)])
            = [w.rdr 0]
        ∧ (w.rdr 0 < 256 → w.rdr 0 % 256 = w.rdr 0) :=
  ⟨receive_char_clear w pre hpre, rdrReads_polls pre, fun v rest hv =>
    ⟨receive_char_hit w pre v rest hpre hv, by
      rw [rdrReads_polls_append]; rfl, fun h => Nat.mod_eq_of_lt h⟩⟩

/-- C8, as stated, fails: with the word `0x141` in `RDR` and receive-not-empty
showing at the first poll, `UART3_receive_char` returns `0x41`, not the word in
the receive-data register. -/
theorem C8_returns_low_byte_only :
    wideRdrWorld.isr = [0x20] ∧ wideRdrWorld.rdr 0 = 0x141
    ∧ (UART3_receive_char wideRdrWorld).val? = some 0x41
    ∧ (UART3_receive_char wideRdrWorld).val? ≠ some (wideRdrWorld.rdr 0) := by
  refine ⟨rfl, rfl, ?_, ?_⟩ <;> decide

/-! ## No timeout -/

/-- What `UART3_send_char` does on any supplied status words. -/
theorem send_char_cases (c : Nat) (w : World) :
    ((∀ v ∈ w.isr, v.testBit 7 = false)
      ∧ UART3_send_char c w
          = Outcome.spinning { w with isr := [], trace := w.trace ++ polls w.isr })
    ∨ ∃ pre v rest, w.isr = pre ++ v :: rest ∧ (∀ x ∈ pre, x.testBit 7 = false)
        ∧ v.testBit 7 = true
        ∧ UART3_send_char c w
            = Outcome.returned ()
                { w with regs := setReg w.regs Reg.TDR c, isr := rest,
                         trace := w.trace ++ polls pre
                           ++ [Access.read Reg.ISR v, Access.write Reg.TDR c] } := by
  rcases split_at_flag 7 w.isr with h | ⟨pre, v, rest, hl, hpre, hv⟩
  · left
    refine ⟨h, ?_⟩
    have := send_char_clear c w w.isr h
    rwa [← world_eq_of_isr w w.isr rfl] at this
  · right
    refine ⟨pre, v, rest, hl, hpre, hv, ?_⟩
    have := send_char_hit c w pre v rest hpre hv
    rwa [← world_eq_of_isr w _ hl] at this

/-- What `UART3_receive_char` does on any supplied status words. -/
theorem receive_char_cases (w : World) :
    ((∀ v ∈ w.isr, v.testBit 5 = false)
      ∧ UART3_receive_char w
          = Outcome.spinning { w with isr := [], trace := w.trace ++ polls w.isr })
    ∨ ∃ pre v rest, w.isr = pre ++ v :: rest ∧ (∀ x ∈ pre, x.testBit 5 = false)
        ∧ v.testBit 5 = true
        ∧ UART3_receive_char w
            = Outcome.returned (w.rdr 0 % 256)
                { w with isr := rest, rdr := fun k => w.rdr (k + 1),
                         trace := w.trace ++ polls pre
                           ++ [Access.read Reg.ISR v, Access.read Reg.RDR (w.rdr 0)] } := by
  rcases split_at_flag 5 w.isr with h | ⟨pre, v, rest, hl, hpre, hv⟩
  · left
    refine ⟨h, ?_⟩
    have := receive_char_clear w w.isr h
    rwa [← world_eq_of_isr w w.isr rfl] at this
  · right
    refine ⟨pre, v, rest, hl, hpre, hv, ?_⟩
    have := receive_char_hit w pre v rest hpre hv
    rwa [← world_eq_of_isr w _ hl] at this

theorem take_split (pre : List Nat) (v : Nat) (rest : List Nat) :
    (pre ++ v :: rest).take (pre.length + 1) = pre ++ [v] := by
  induction pre with
  | nil => simp
  | cons a pre ih => simpa using ih

/-- C10 (no timeout).  `UART3_send_char` returns exactly when one of the
supplied status words has bit 7 set, `UART3_receive_char` exactly when one has
bit 5 set.  When the call returns, with `k` the number of leading status words
that have the flag clear, its accesses are `k + 1` polls of `ISR` followed by
the one access to the data register.  And on any status words `l` that all
have the flag clear the call is still spinning after polling all of `l`,
having accessed nothing but `ISR`; so a flag that never sets keeps the call
from ever returning. -/
theorem C10_no_timeout (c : Nat) (w : World) :
    ((UART3_send_char c w).isReturned = true ↔ ∃ v ∈ w.isr, v.testBit 7 = true)
    ∧ ((UART3_receive_char w).isReturned = true ↔ ∃ v ∈ w.isr, v.testBit 5 = true)
    ∧ ((UART3_send_char c w).isReturned = true →
        (UART3_send_char c w).world.trace
            = w.trace
              ++ polls (w.isr.take ((w.isr.takeWhile fun v => !v.testBit 7).length + 1))
              ++ [Access.write Reg.TDR c]
        ∧ (polls (w.isr.take ((w.isr.takeWhile fun v => !v.testBit 7).length + 1))).length
            = (w.isr.takeWhile fun v => !v.testBit 7).length + 1)
    ∧ ((UART3_receive_char w).isReturned = true →
        (UART3_receive_char w).world.trace
            = w.trace
              ++ polls (w.isr.take ((w.isr.takeWhile fun v => !v.testBit 5).length + 1))
              ++ [Access.read Reg.RDR (w.rdr 0)]
        ∧ (polls (w.isr.take ((w.isr.takeWhile fun v => !v.testBit 5).length + 1))).length
            = (w.isr.takeWhile fun v => !v.testBit 5).length + 1)
    ∧ (∀ l : List Nat, (∀ v ∈ l, v.testBit 7 = false) →
        UART3_send_char c { w with isr := l }
            = Outcome.spinning { w with isr := [], trace := w.trace ++ polls l }
        ∧ (polls l).length = l.length)
    ∧ (∀ l : List Nat, (∀ v ∈ l, v.testBit 5 = false) →
        UART3_receive_char { w with isr := l }
            = Outcome.spinning { w with isr := [], trace := w.trace ++ polls l }
        ∧ (polls l).length = l.length) := by
  refine ⟨?_, ?_, ?_, ?_, fun l hl => ⟨send_char_clear c w l hl, polls_length l⟩,
    fun l hl => ⟨receive_char_clear w l hl, polls_length l⟩⟩
  · rcases send_char_cases c w with ⟨h, e⟩ | ⟨pre, v, rest, hl, hpre, hv, e⟩
    · rw [e]
      constructor
      · intro hr; cases hr
      · rintro ⟨v, hv, hb⟩
        rw [h v hv] at hb; cases hb
    · rw [e]
      exact ⟨fun _ => ⟨v, by rw [hl]; simp, hv⟩, fun _ => rfl⟩
  · rcases receive_char_cases w with ⟨h, e⟩ | ⟨pre, v, rest, hl, hpre, hv, e⟩
    · rw [e]
      constructor
      · intro hr; cases hr
      · rintro ⟨v, hv, hb⟩
        rw [h v hv] at hb; cases hb
    · rw [e]
      exact ⟨fun _ => ⟨v, by rw [hl]; simp, hv⟩, fun _ => rfl⟩
  · rcases send_char_cases c w with ⟨h, e⟩ | ⟨pre, v, rest, hl, hpre, hv, e⟩
    · rw [e]; intro hr; cases hr
    · intro _
      rw [e, hl, takeWhile_clear_split 7 pre v rest hpre hv, take_split, polls_length]
      simp [Outcome.world, polls]
  · rcases receive_char_cases w with ⟨h, e⟩ | ⟨pre, v, rest, hl, hpre, hv, e⟩
    · rw [e]; intro hr; cases hr
    · intro _
      rw [e, hl, takeWhile_clear_split 5 pre v rest hpre hv, take_split, polls_length]
      simp [Outcome.world, polls]

/-! ## Strings -/

theorem tdrWrites_append (a b : List Access) :
    tdrWrites (a ++ b) = tdrWrites a ++ tdrWrites b := by
  simp [tdrWrites]

theorem guardedWrites_nil : GuardedWrites [] := by
  intro i c h
  simp at h

/-- A read put in front of a guarded trace that does not start with a write to
`TDR` leaves it guarded. -/
theorem guardedWrites_cons_read (r : Reg) (x : Nat) (t : List Access)
    (ht : GuardedWrites t) (hhead : ∀ c, t.head? ≠ some (Access.write Reg.TDR c)) :
    GuardedWrites (Access.read r x :: t) := by
  intro i c h
  match i with
  | 0 => simp at h
  | 1 =>
    rw [List.getElem?_cons_succ] at h
    exact absurd (by rw [List.head?_eq_getElem?]; exact h) (hhead c)
  | j + 2 =>
    rw [List.getElem?_cons_succ] at h
    obtain ⟨v, _, hv, hb⟩ := ht (j + 1) c h
    exact ⟨v, by omega, by simpa using hv, hb⟩

/-- A successful poll followed by the write, in front of a guarded trace that
does not start with a write to `TDR`. -/
theorem guardedWrites_cons_send (v c : Nat) (t : List Access) (hv : v.testBit 7 = true)
    (ht : GuardedWrites t) (hhead : ∀ c, t.head? ≠ some (Access.write Reg.TDR c)) :
    GuardedWrites (Access.read Reg.ISR v :: Access.write Reg.TDR c :: t) := by
  intro i c' h
  match i with
  | 0 => simp at h
  | 1 => exact ⟨v, by omega, by simp, hv⟩
  | 2 =>
    rw [List.getElem?_cons_succ, List.getElem?_cons_succ] at h
    exact absurd (by rw [List.head?_eq_getElem?]; exact h) (hhead c')
  | j + 3 =>
    rw [List.getElem?_cons_succ, List.getElem?_cons_succ] at h
    obtain ⟨v', _, hv', hb⟩ := ht (j + 1) c' h
    exact ⟨v', by omega, by simpa using hv', hb⟩

theorem guardedWrites_polls_append (l : List Nat) (t : List Access)
    (ht : GuardedWrites t) (hhead : ∀ c, t.head? ≠ some (Access.write Reg.TDR c)) :
    GuardedWrites (polls l ++ t)
      ∧ ∀ c, (polls l ++ t).head? ≠ some (Access.write Reg.TDR c) := by
  induction l with
  | nil => exact ⟨ht, hhead⟩
  | cons a l ih =>
    refine ⟨?_, ?_⟩
    · exact guardedWrites_cons_read Reg.ISR a _ ih.1 ih.2
    · intro c
      simp [polls]

theorem onlyPollsAndSends_polls (l : List Nat) : OnlyPollsAndSends (polls l) := by
  intro a ha
  simp only [polls, List.mem_map] at ha
  obtain ⟨v, _, rfl⟩ := ha
  exact Or.inl ⟨v, rfl⟩

theorem onlyPollsAndSends_append (a b : List Access)
    (ha : OnlyPollsAndSends a) (hb : OnlyPollsAndSends b) : OnlyPollsAndSends (a ++ b) := by
  intro x hx
  rcases List.mem_append.1 hx with h | h
  · exact ha x h
  · exact hb x h

theorem sendTrace_then (pre : List Nat) (v c : Nat) (t : List Access)
    (hv : v.testBit 7 = true)
    (ht : GuardedWrites t) (hhead : ∀ c, t.head? ≠ some (Access.write Reg.TDR c))
    (ho : OnlyPollsAndSends t) :
    GuardedWrites (sendTrace pre v c ++ t)
    ∧ (∀ c', (sendTrace pre v c ++ t).head? ≠ some (Access.write Reg.TDR c'))
    ∧ OnlyPollsAndSends (sendTrace pre v c ++ t)
    ∧ tdrWrites (sendTrace pre v c ++ t) = c :: tdrWrites t := by
  have hg := guardedWrites_cons_send v c t hv ht hhead
  have hh : ∀ c', (Access.read Reg.ISR v :: Access.write Reg.TDR c :: t).head?
      ≠ some (Access.write Reg.TDR c') := by
    intro c'; simp
  have key := guardedWrites_polls_append pre _ hg hh
  have e : sendTrace pre v c ++ t
      = polls pre ++ Access.read Reg.ISR v :: Access.write Reg.TDR c :: t := by
    simp [sendTrace]
  rw [e]
  refine ⟨key.1, key.2, ?_, ?_⟩
  · apply onlyPollsAndSends_append _ _ (onlyPollsAndSends_polls pre)
    intro a ha
    rcases List.mem_cons.1 ha with rfl | ha
    · exact Or.inl ⟨v, rfl⟩
    rcases List.mem_cons.1 ha with rfl | ha
    · exact Or.inr ⟨c, rfl⟩
    · exact ho a ha
  · rw [tdrWrites_append, tdrWrites_polls]
    simp [tdrWrites]

theorem send_string_zero (post : List Nat) (w : World) :
    UART3_send_string (0 :: post) w = Outcome.returned () w := by
  simp [UART3_send_string]

theorem send_string_cons (c : Nat) (rest : List Nat) (w : World) (hc : c ≠ 0) :
    UART3_send_string (c :: rest) w
      = match UART3_send_char c w with
        | Outcome.returned _ w1 => UART3_send_string rest w1
        | Outcome.spinning w1 => Outcome.spinning w1
        | Outcome.fault w1 => Outcome.fault w1 := by
  rw [UART3_send_string, if_neg hc]

/-- What one call of `UART3_send_string` adds to the trace, whatever bytes and
status words it is given. -/
theorem send_string_run (str : List Nat) (w : World) :
    ∃ t, (UART3_send_string str w).world.trace = w.trace ++ t
      ∧ GuardedWrites t ∧ (∀ c, t.head? ≠ some (Access.write Reg.TDR c))
      ∧ OnlyPollsAndSends t
      ∧ tdrWrites t <+: chars str
      ∧ ((UART3_send_string str w).isReturned = true →
          tdrWrites t = chars str ∧ 0 ∈ str) := by
  induction str generalizing w with
  | nil =>
    refine ⟨[], by simp [UART3_send_string, Outcome.world], guardedWrites_nil, by simp,
      by intro a ha; simp at ha, by simp [tdrWrites], ?_⟩
    intro h; simp [UART3_send_string, Outcome.isReturned] at h
  | cons c rest ih =>
    by_cases hc : c = 0
    · subst hc
      rw [send_string_zero]
      exact ⟨[], by simp [Outcome.world], guardedWrites_nil, by simp,
        by intro a ha; simp at ha, by simp [tdrWrites], fun _ => by simp [chars, tdrWrites]⟩
    · rw [send_string_cons c rest w hc]
      rcases send_char_cases c w with ⟨_, e⟩ | ⟨pre, v, rest', _, _, hv, e⟩
      · rw [e]
        refine ⟨polls w.isr, rfl, ?_, ?_, onlyPollsAndSends_polls _, ?_, ?_⟩
        · have := guardedWrites_polls_append w.isr [] guardedWrites_nil (by simp)
          simpa using this.1
        · have := guardedWrites_polls_append w.isr [] guardedWrites_nil (by simp)
          simpa using this.2
        · rw [tdrWrites_polls]; exact List.nil_prefix
        · intro h; simp [Outcome.isReturned] at h
      · rw [e]
        obtain ⟨t, ht, hg, hh, ho, hp, hr⟩ := ih
          { w with regs := setReg w.regs Reg.TDR c, isr := rest',
                   trace := w.trace ++ polls pre
                     ++ [Access.read Reg.ISR v, Access.write Reg.TDR c] }
        obtain ⟨k1, k2, k3, k4⟩ := sendTrace_then pre v c t hv hg hh ho
        have hchars : chars (c :: rest) = c :: chars rest := by
          simp only [chars]
          rw [List.takeWhile_cons]
          simp [hc]
        refine ⟨sendTrace pre v c ++ t, ?_, k1, k2, k3, ?_, ?_⟩
        · rw [ht]; simp [sendTrace]
        · rw [k4, hchars]; exact (List.prefix_cons_inj c).2 hp
        · intro h
          obtain ⟨h1, h2⟩ := hr h
          exact ⟨by rw [k4, hchars, h1], List.mem_cons_of_mem _ h2⟩

/-- With a terminator in the string and transmit-empty showing at least once
for each character, the call returns. -/
theorem send_string_returns (s post : List Nat) (w : World) (hs : ∀ c ∈ s, c ≠ 0)
    (hflags : s.length ≤ w.isr.countP (fun v => v.testBit 7)) :
    (UART3_send_string (s ++ 0 :: post) w).isReturned = true := by
  induction s generalizing w with
  | nil => simp [send_string_zero, Outcome.isReturned]
  | cons c s ih =>
    have hc : c ≠ 0 := hs c (List.mem_cons_self _ _)
    rw [List.cons_append, send_string_cons c _ w hc]
    rcases send_char_cases c w with ⟨h0, _⟩ | ⟨pre, v, rest, hl, hpre, hv, e⟩
    · have : w.isr.countP (fun v => v.testBit 7) = 0 := by
        rw [List.countP_eq_zero]
        intro a ha
        simp [h0 a ha]
      simp [this] at hflags
    · rw [e]
      apply ih _ (fun x hx => hs x (List.mem_cons_of_mem _ hx))
      have h0 : pre.countP (fun v => v.testBit 7) = 0 := by
        rw [List.countP_eq_zero]
        intro a ha
        simp [hpre a ha]
      rw [hl, List.countP_append, List.countP_cons, h0] at hflags
      simp only [hv, if_true, List.length_cons] at hflags
      show s.length ≤ rest.countP (fun v => v.testBit 7)
      omega

theorem chars_split (s post : List Nat) (hs : ∀ c ∈ s, c ≠ 0) :
    chars (s ++ 0 :: post) = s := by
  induction s with
  | nil => simp [chars]
  | cons c s ih =>
    have hc : c ≠ 0 := hs c (List.mem_cons_self _ _)
    simp only [chars, List.cons_append] at ih ⊢
    rw [List.takeWhile_cons]
    simp [hc, ih (fun x hx => hs x (List.mem_cons_of_mem _ hx))]

theorem send_string_ignores_rest (s post : List Nat) (w : World) (hs : ∀ c ∈ s, c ≠ 0) :
    UART3_send_string (s ++ 0 :: post) w = UART3_send_string (s ++ [0]) w := by
  induction s generalizing w with
  | nil => simp [send_string_zero]
  | cons c s ih =>
    have hc : c ≠ 0 := hs c (List.mem_cons_self _ _)
    rw [List.cons_append, List.cons_append, send_string_cons c _ w hc,
      send_string_cons c _ w hc]
    cases UART3_send_char c w with
    | returned _ w1 => exact ih w1 (fun x hx => hs x (List.mem_cons_of_mem _ hx))
    | spinning w1 => rfl
    | fault w1 => rfl

theorem chars_length (str : List Nat) : (chars str).length = str.indexOf 0 := by
  induction str with
  | nil => rfl
  | cons c rest ih =>
    simp only [chars] at ih ⊢
    rw [List.takeWhile_cons, List.indexOf_cons]
    by_cases hc : c = 0
    · simp [hc]
    · have hb : (c == 0) = false := by simpa using hc
      have hb' : (c != 0) = true := by simpa using hc
      rw [hb, hb']
      simp [ih]

theorem not_zero_mem_chars (str : List Nat) : 0 ∉ chars str := by
  intro h
  have := List.mem_takeWhile_imp h
  simp at this

/-! ## Strings: the claims -/

/-- C5 (transmit ordering): let the string hold the characters `s`, none of
them zero, then its terminator (and anything after it), and let the status
words ahead show transmit-empty (bit 7) at least once for each character.
Then `UART3_send_string` returns; the words it writes to `TDR` are exactly the
characters of `s`, from left to right; every write to `TDR` stands in the
trace directly after a read of `ISR` whose bit 7 is set; and the call performs
no access other than reads of `ISR` and writes to `TDR`. -/
theorem C5_transmit_ordering (s post : List Nat) (w : World)
    (hs : ∀ c ∈ s, c ≠ 0)
    (hflags : s.length ≤ w.isr.countP (fun v => v.testBit 7)) :
    ∃ w' t, UART3_send_string (s ++ 0 :: post) w = Outcome.returned () w'
      ∧ w'.trace = w.trace ++ t
      ∧ tdrWrites t = s
      ∧ (∀ i c, t[i]? = some (Access.write Reg.TDR c) →
          ∃ v, 0 < i ∧ t[i - 1]? = some (Access.read Reg.ISR v) ∧ v.testBit 7 = true)
      ∧ (∀ a ∈ t, (∃ v, a = Access.read Reg.ISR v) ∨ ∃ c, a = Access.write Reg.TDR c) := by
  obtain ⟨t, ht, hg, _, ho, _, hr⟩ := send_string_run (s ++ 0 :: post) w
  have hret := send_string_returns s post w hs hflags
  cases hout : UART3_send_string (s ++ 0 :: post) w with
  | returned u w' =>
    rw [hout] at ht hr
    refine ⟨w', t, rfl, ht, ?_, hg, ho⟩
    rw [(hr rfl).1, chars_split s post hs]
  | spinning w' => rw [hout] at hret; cases hret
  | fault w' => rw [hout] at hret; cases hret

/-- C6 (null-terminator exclusion): whatever bytes `str` and status words
`UART3_send_string` is given, the words it writes to `TDR` are an initial part
of the bytes that come before the first zero byte of `str`, so it never writes
0 and sends nothing that follows the first zero byte; when it returns it has
written all of those bytes, their number being the index of the first zero
byte.  When `str` is `s`, without a zero byte, followed by a zero byte and
`post`, then `s` is what comes before the first zero byte, the call is the
same as on `s` and its terminator alone, and it returns as soon as
transmit-empty shows once for each byte of `s`.  On the empty
string the call returns at once with no register access at all. -/
theorem C6_null_terminator_excluded (str : List Nat) (w : World) :
    (∃ t, (UART3_send_string str w).world.trace = w.trace ++ t
        ∧ 0 ∉ tdrWrites t
        ∧ tdrWrites t <+: chars str
        ∧ ((UART3_send_string str w).isReturned = true →
            tdrWrites t = chars str ∧ (tdrWrites t).length = str.indexOf 0 ∧ 0 ∈ str))
    ∧ (∀ s post, str = s ++ 0 :: post → (∀ c ∈ s, c ≠ 0) →
        chars str = s ∧ str.indexOf 0 = s.length
        ∧ UART3_send_string str w = UART3_send_string (s ++ [0]) w
        ∧ (s.length ≤ w.isr.countP (fun v => v.testBit 7) →
            (UART3_send_string str w).isReturned = true))
    ∧ (∀ post, UART3_send_string (0 :: post) w = Outcome.returned () w) := by
  refine ⟨?_, ?_, fun post => send_string_zero post w⟩
  · obtain ⟨t, ht, _, _, _, hp, hr⟩ := send_string_run str w
    refine ⟨t, ht, ?_, hp, ?_⟩
    · intro h0
      exact not_zero_mem_chars str (hp.subset h0)
    · intro h
      obtain ⟨h1, h2⟩ := hr h
      exact ⟨h1, by rw [h1, chars_length], h2⟩
  · rintro s post rfl hs
    refine ⟨chars_split s post hs, ?_, send_string_ignores_rest s post w hs,
      fun hf => send_string_returns s post w hs hf⟩
    rw [← chars_length, chars_split s post hs]

/-! ## The echo loop -/

theorem receive_char_at (w : World) (pre : List Nat) (v : Nat) (rest : List Nat)
    (hl : w.isr = pre ++ v :: rest)
    (h : ∀ x ∈ pre, x.testBit 5 = false) (hv : v.testBit 5 = true) :
    UART3_receive_char w
      = Outcome.returned (w.rdr 0 % 256)
          { w with isr := rest, rdr := fun k => w.rdr (k + 1),
                   trace := w.trace ++ polls pre
                     ++ [Access.read Reg.ISR v, Access.read Reg.RDR (w.rdr 0)] } := by
  have := receive_char_hit w pre v rest h hv
  rwa [← world_eq_of_isr w _ hl] at this

theorem send_char_at (c : Nat) (w : World) (pre : List Nat) (v : Nat) (rest : List Nat)
    (hl : w.isr = pre ++ v :: rest)
    (h : ∀ x ∈ pre, x.testBit 7 = false) (hv : v.testBit 7 = true) :
    UART3_send_char c w
      = Outcome.returned ()
          { w with regs := setReg w.regs Reg.TDR c, isr := rest,
                   trace := w.trace ++ polls pre
                     ++ [Access.read Reg.ISR v, Access.write Reg.TDR c] } := by
  have := send_char_hit c w pre v rest h hv
  rwa [← world_eq_of_isr w _ hl] at this

theorem dataAccesses_polls_append (l : List Nat) (t : List Access) :
    dataAccesses (polls l ++ t) = dataAccesses t := by
  simp [polls, dataAccesses]

theorem dataAccesses_append (a b : List Access) :
    dataAccesses (a ++ b) = dataAccesses a ++ dataAccesses b := by
  simp [dataAccesses]

theorem rdrReads_append (a b : List Access) :
    rdrReads (a ++ b) = rdrReads a ++ rdrReads b := by
  simp [rdrReads]

/-- The accesses of one pass of the echo loop: polls until the byte is there,
the read of `RDR`, polls until the transmitter is free, the write to `TDR`. -/
theorem exchange_trace (e : Exchange) (t : List Access) :
    dataAccesses
        ((polls e.rxWait ++ [Access.read Reg.ISR e.rxReady, Access.read Reg.RDR e.byte])
          ++ (polls e.txWait ++ [Access.read Reg.ISR e.txReady, Access.write Reg.TDR e.byte])
          ++ t)
      = Access.read Reg.RDR e.byte :: Access.write Reg.TDR e.byte :: dataAccesses t := by
  rw [List.append_assoc, List.append_assoc, dataAccesses_polls_append, List.append_assoc,
    dataAccesses_append, dataAccesses_polls_append, dataAccesses_append]
  rfl

theorem tdrWrites_dataAccesses (t : List Access) :
    tdrWrites (dataAccesses t) = tdrWrites t := by
  induction t with
  | nil => rfl
  | cons a t ih =>
    cases a with
    | read r v => cases r <;> simpa [dataAccesses, tdrWrites, List.filter_cons] using ih
    | write r v => cases r <;> simpa [dataAccesses, tdrWrites, List.filter_cons] using ih

theorem rdrReads_dataAccesses (t : List Access) :
    rdrReads (dataAccesses t) = rdrReads t := by
  induction t with
  | nil => rfl
  | cons a t ih =>
    cases a with
    | read r v => cases r <;> simpa [dataAccesses, rdrReads, List.filter_cons] using ih
    | write r v => cases r <;> simpa [dataAccesses, rdrReads, List.filter_cons] using ih

theorem tdrWrites_echoData (bs : List Nat) : tdrWrites (echoData bs) = bs := by
  induction bs with
  | nil => rfl
  | cons b bs ih => simpa [echoData, tdrWrites] using ih

theorem rdrReads_echoData (bs : List Nat) : rdrReads (echoData bs) = bs := by
  induction bs with
  | nil => rfl
  | cons b bs ih => simpa [echoData, rdrReads] using ih

/-- The echo loop on the status words and bytes of a sequence of exchanges. -/
theorem echo_run (es : List Exchange) (idle : List Nat) (f : Nat → Nat) (w : World)
    (fuel : Nat) (hes : ∀ e ∈ es, e.wellFormed)
    (hidle : ∀ v ∈ idle, v.testBit 5 = false) (hfuel : es.length ≤ fuel) :
    ∃ t, (echoLoop fuel
            { w with isr := exchangeIsr es idle,
                     rdr := feed (es.map Exchange.byte) f }).trace = w.trace ++ t
      ∧ dataAccesses t = echoData (es.map Exchange.byte) := by
  induction es generalizing w fuel with
  | nil =>
    cases fuel with
    | zero => exact ⟨[], by simp [echoLoop], rfl⟩
    | succ n =>
      refine ⟨polls idle, ?_, ?_⟩
      · rw [echoLoop]
        have e := receive_char_clear { w with rdr := feed [] f } idle hidle
        simp only [exchangeIsr, List.map_nil] at e ⊢
        rw [e]
        rfl
      · have := dataAccesses_polls_append idle []
        simpa [echoData] using this
  | cons e es ih =>
    obtain ⟨n, rfl⟩ : ∃ n, fuel = n + 1 := ⟨fuel - 1, by simp at hfuel; omega⟩
    obtain ⟨h1, h2, h3, h4, h5⟩ := hes e (List.mem_cons_self _ _)
    have e1 := receive_char_at
      { w with isr := exchangeIsr (e :: es) idle,
               rdr := feed ((e :: es).map Exchange.byte) f }
      e.rxWait e.rxReady (e.txWait ++ e.txReady :: exchangeIsr es idle) rfl h1 h2
    have hb : feed ((e :: es).map Exchange.byte) f 0 % 256 = e.byte := by
      show e.byte % 256 = e.byte
      exact Nat.mod_eq_of_lt h5
    rw [echoLoop, e1]
    simp only
    have e2 := send_char_at (feed ((e :: es).map Exchange.byte) f 0 % 256)
      { w with isr := e.txWait ++ e.txReady :: exchangeIsr es idle,
               rdr := fun k => feed ((e :: es).map Exchange.byte) f (k + 1),
               trace := w.trace ++ polls e.rxWait
                 ++ [Access.read Reg.ISR e.rxReady,
                     Access.read Reg.RDR (feed ((e :: es).map Exchange.byte) f 0)] }
      e.txWait e.txReady (exchangeIsr es idle) rfl h3 h4
    rw [e2]
    simp only
    have hb0 : feed ((e :: es).map Exchange.byte) f 0 = e.byte := rfl
    rw [hb, hb0]
    obtain ⟨t, ht, hd⟩ := ih
      { w with regs := setReg w.regs Reg.TDR e.byte,
               trace := (w.trace ++ polls e.rxWait
                 ++ [Access.read Reg.ISR e.rxReady, Access.read Reg.RDR e.byte])
                 ++ polls e.txWait
                 ++ [Access.read Reg.ISR e.txReady, Access.write Reg.TDR e.byte] }
      n (fun x hx => hes x (List.mem_cons_of_mem _ hx))
      (by simpa using hfuel)
    refine ⟨(polls e.rxWait ++ [Access.read Reg.ISR e.rxReady, Access.read Reg.RDR e.byte])
          ++ (polls e.txWait ++ [Access.read Reg.ISR e.txReady, Access.write Reg.TDR e.byte])
          ++ t, ?_, ?_⟩
    · simp only [List.append_assoc] at ht ⊢
      exact ht
    · rw [exchange_trace, hd]
      rfl

/-- C9 (echo end to end): let the peer inject the bytes of the exchanges `es`
one at a time, zero bytes included, the status register showing
receive-not-empty once for each byte and transmit-empty once after each, in
any pattern of waiting, and no receive-not-empty once the peer is done.  From
any machine (an initialised one in particular), the echo loop of `main`,
followed for at least as many passes as there are bytes, reads from `RDR`
exactly the injected bytes and writes to `TDR` exactly the same bytes in the
same order; its accesses other than polls are, byte after byte, the read of the
byte and then the write of that byte. -/
theorem C9_echo_end_to_end (es : List Exchange) (idle : List Nat) (f : Nat → Nat)
    (w : World) (fuel : Nat) (hes : ∀ e ∈ es, e.wellFormed)
    (hidle : ∀ v ∈ idle, v.testBit 5 = false) (hfuel : es.length ≤ fuel) :
    ∃ t, (echoLoop fuel
            { w with isr := exchangeIsr es idle,
                     rdr := feed (es.map Exchange.byte) f }).trace = w.trace ++ t
      ∧ rdrReads t = es.map Exchange.byte
      ∧ tdrWrites t = es.map Exchange.byte
      ∧ dataAccesses t = echoData (es.map Exchange.byte) := by
  obtain ⟨t, ht, hd⟩ := echo_run es idle f w fuel hes hidle hfuel
  refine ⟨t, ht, ?_, ?_, hd⟩
  · rw [← rdrReads_dataAccesses, hd, rdrReads_echoData]
  · rw [← tdrWrites_dataAccesses, hd, tdrWrites_echoData]

/-! ## The claims at sample inputs -/

/-- C2 at the sample machine (every mode and function field set to all ones
beforehand), pin 3 and `AFR[1]` field 5. -/
theorem C2_pin_configuration_witness :
    modeField ((UART3_init sampleWorld).regs Reg.MODER) 8 = 2
    ∧ afField ((UART3_init sampleWorld).regs Reg.AFR1) 0 = 7
    ∧ modeField ((UART3_init sampleWorld).regs Reg.MODER) 3
        = modeField (sampleWorld.regs Reg.MODER) 3
    ∧ afField ((UART3_init sampleWorld).regs Reg.AFR1) 5
        = afField (sampleWorld.regs Reg.AFR1) 5 :=
  ⟨(C2_pin_configuration sampleWorld).1,
    (C2_pin_configuration sampleWorld).2.2.1,
    (C2_pin_configuration sampleWorld).2.2.2.2.1 3 (by decide) (by decide) (by decide),
    (C2_pin_configuration sampleWorld).2.2.2.2.2.1 5 (by decide) (by decide)⟩

/-- C4 at the sample machine, three calls. -/
theorem C4_init_idempotent_witness :
    1 ≤ 3
    ∧ (UART3_init^[3] sampleWorld).regs = (UART3_init sampleWorld).regs
    ∧ (UART3_init (UART3_init sampleWorld)).regs = (UART3_init sampleWorld).regs :=
  ⟨by decide, C4_init_idempotent sampleWorld 3 (by decide)⟩

/-- C5 for the string `"AB"`, with a byte after the terminator. -/
theorem C5_transmit_ordering_witness :
    (∀ c ∈ [65, 66], c ≠ 0)
    ∧ [65, 66].length ≤ txWorld.isr.countP (fun v => v.testBit 7)
    ∧ ∃ w' t, UART3_send_string ([65, 66] ++ 0 :: [67]) txWorld = Outcome.returned () w'
        ∧ w'.trace = txWorld.trace ++ t
        ∧ tdrWrites t = [65, 66]
        ∧ (∀ i c, t[i]? = some (Access.write Reg.TDR c) →
            ∃ v, 0 < i ∧ t[i - 1]? = some (Access.read Reg.ISR v) ∧ v.testBit 7 = true)
        ∧ (∀ a ∈ t, (∃ v, a = Access.read Reg.ISR v) ∨ ∃ c, a = Access.write Reg.TDR c) :=
  ⟨by decide, by decide,
    C5_transmit_ordering [65, 66] [67] txWorld (by decide) (by decide)⟩

/-- C6 for the bytes `"Hi"`, terminator, `"!"`. -/
theorem C6_null_terminator_excluded_witness :
    chars [72, 105, 0, 33] = [72, 105]
    ∧ List.indexOf 0 [72, 105, 0, 33] = 2
    ∧ UART3_send_string [72, 105, 0, 33] txWorld = UART3_send_string ([72, 105] ++ [0]) txWorld
    ∧ (UART3_send_string [72, 105, 0, 33] txWorld).isReturned = true :=
  have h := (C6_null_terminator_excluded [72, 105, 0, 33] txWorld).2.1 [72, 105] [33] rfl
    (by decide)
  ⟨h.1, h.2.1, h.2.2.1, h.2.2.2 (by decide)⟩

/-- C7 at the sample machine: three polls without transmit-empty, then one
with it. -/
theorem C7_send_char_blocking_witness :
    (∀ x ∈ [0x00, 0x10, 0x20], x.testBit 7 = false) ∧ Nat.testBit 0x80 7 = true
    ∧ UART3_send_char 65 { sampleWorld with isr := [0x00, 0x10, 0x20] }
        = Outcome.spinning
            { sampleWorld with isr := [],
                               trace := sampleWorld.trace ++ polls [0x00, 0x10, 0x20] }
    ∧ UART3_send_char 65 { sampleWorld with isr := [0x00, 0x10, 0x20] ++ 0x80 :: [0x07] }
        = Outcome.returned ()
            { sampleWorld with
                regs := setReg sampleWorld.regs Reg.TDR 65, isr := [0x07],
                trace := sampleWorld.trace ++ polls [0x00, 0x10, 0x20]
                  ++ [Access.read Reg.ISR 0x80, Access.write Reg.TDR 65] } :=
  ⟨by decide, by decide,
    (C7_send_char_blocking 65 sampleWorld [0x00, 0x10, 0x20] (by decide)).1,
    ((C7_send_char_blocking 65 sampleWorld [0x00, 0x10, 0x20] (by decide)).2.2
      0x80 [0x07] (by decide)).1⟩

/-- C8, as amended, at the machine whose `RDR` holds `0x141`: the character
returned is `0x41`. -/
theorem C8_receive_char_blocking_witness :
    (∀ x ∈ [0x00, 0x80], x.testBit 5 = false) ∧ Nat.testBit 0x20 5 = true
    ∧ UART3_receive_char { wideRdrWorld with isr := [0x00, 0x80] ++ 0x20 :: [] }
        = Outcome.returned (0x141 % 256)
            { wideRdrWorld with
                isr := [], rdr := fun k => wideRdrWorld.rdr (k + 1),
                trace := wideRdrWorld.trace ++ polls [0x00, 0x80]
                  ++ [Access.read Reg.ISR 0x20, Access.read Reg.RDR 0x141] } :=
  ⟨by decide, by decide,
    ((C8_receive_char_blocking wideRdrWorld [0x00, 0x80] (by decide)).2.2
      0x20 [] (by decide)).1⟩

/-- C9 for the bytes of `"Hi\r\n"`, six passes of the loop. -/
theorem C9_echo_end_to_end_witness :
    (∀ e ∈ sampleExchanges, e.wellFormed)
    ∧ (∀ v ∈ [0x80, 0x00], v.testBit 5 = false)
    ∧ sampleExchanges.length ≤ 6
    ∧ ∃ t, (echoLoop 6
              { sampleWorld with
                  isr := exchangeIsr sampleExchanges [0x80, 0x00],
                  rdr := feed [72, 105, 13, 10] (fun _ => 0) }).trace
            = sampleWorld.trace ++ t
        ∧ rdrReads t = [72, 105, 13, 10]
        ∧ tdrWrites t = [72, 105, 13, 10]
        ∧ dataAccesses t = echoData [72, 105, 13, 10] :=
  ⟨by decide, by decide, by decide,
    C9_echo_end_to_end sampleExchanges [0x80, 0x00] (fun _ => 0) sampleWorld 6
      (by decide) (by decide) (by decide)⟩

/-! ## The accesses of `UART3_init` -/

/-- The trace `UART3_init` adds, access by access. -/
theorem init_trace (w : World) :
    (UART3_init w).trace = w.trace ++ initTrace w.regs := by
  simp [UART3_init, orAssign, andAssign, World.load, World.store, setReg, not32, initTrace]

theorem init_isr (w : World) : (UART3_init w).isr = w.isr := rfl

theorem init_rdr (w : World) : (UART3_init w).rdr = w.rdr := rfl

theorem writesOf_initTrace (regs : Reg → Nat) :
    writesOf (initTrace regs)
      = [ (Reg.AHB4ENR, regs Reg.AHB4ENR ||| 8),
          (Reg.APB1LENR, regs Reg.APB1LENR ||| 0x40000),
          (Reg.MODER, regs Reg.MODER &&& 0xFFF0FFFF),
          (Reg.MODER, (regs Reg.MODER &&& 0xFFF0FFFF) ||| 0xA0000),
          (Reg.AFR1, regs Reg.AFR1 &&& 0xFFFFFF00),
          (Reg.AFR1, (regs Reg.AFR1 &&& 0xFFFFFF00) ||| 0x77),
          (Reg.BRR, 555),
          (Reg.CR1, regs Reg.CR1 ||| 4),
          (Reg.CR1, (regs Reg.CR1 ||| 4) ||| 8),
          (Reg.CR1, ((regs Reg.CR1 ||| 4) ||| 8) ||| 1) ] := by
  simp [initTrace, writesOf]

theorem writtenRegs_initTrace (regs : Reg → Nat) :
    writtenRegs (initTrace regs)
      = [Reg.AHB4ENR, Reg.APB1LENR, Reg.MODER, Reg.MODER, Reg.AFR1, Reg.AFR1, Reg.BRR,
         Reg.CR1, Reg.CR1, Reg.CR1] := by
  simp [writtenRegs, writesOf_initTrace]

theorem index_lt_of_getElem? {α : Type} (l : List α) (i : Nat) (a : α)
    (h : l[i]? = some a) : i < l.length := by
  by_contra hn
  rw [List.getElem?_eq_none (by omega)] at h
  cases h

theorem lor_4_8_1 (c : Nat) : ((c ||| 4) ||| 8) ||| 1 = c ||| 0xD := by
  rw [Nat.lor_assoc, Nat.lor_assoc]
  rfl

theorem testBit_lor_4 (c i : Nat) (hi : i ≠ 2) : (c ||| 4).testBit i = c.testBit i := by
  have := testBit_lor_two_pow c 2 i
  simpa [hi] using this

theorem testBit_lor_4_8 (c i : Nat) (h2 : i ≠ 2) (h3 : i ≠ 3) :
    ((c ||| 4) ||| 8).testBit i = c.testBit i := by
  have := testBit_lor_two_pow (c ||| 4) 3 i
  rw [show (2 : Nat) ^ 3 = 8 from rfl] at this
  rw [this, testBit_lor_4 c i h2]
  simp [h3]

theorem testBit_13 (i : Nat) : Nat.testBit 0xD i = decide (i = 0 ∨ i = 2 ∨ i = 3) := by
  by_cases hi : i < 4
  · interval_cases i <;> decide
  · rw [testBit_small 0xD i 4 (by norm_num) (by omega)]
    symm
    simp only [decide_eq_false_iff_not]
    omega

/-! ## Initialisation order and control register: the claims -/

/-- C11 (initialisation ordering): the writes of one call of `UART3_init` are,
in this order, AHB4ENR, APB1LENR, MODER, MODER, AFR[1], AFR[1], BRR, CR1, CR1,
CR1, with the words listed.  So both clock-enable writes come before every
write to a GPIO or USART register, every pin-configuration write comes before
the baud-rate write, the baud-rate write and the writes that set
receiver-enable (bit 2) and transmitter-enable (bit 3) come before the last
write, which is the one to CR1 that sets the enable bit (bit 0); and in every
earlier write to CR1 bit 0 is what it was initially. -/
theorem C11_init_ordering (w : World) :
    ∃ t, (UART3_init w).trace = w.trace ++ t
      ∧ writesOf t
          = [ (Reg.AHB4ENR, w.regs Reg.AHB4ENR ||| 8),
              (Reg.APB1LENR, w.regs Reg.APB1LENR ||| 0x40000),
              (Reg.MODER, w.regs Reg.MODER &&& 0xFFF0FFFF),
              (Reg.MODER, (w.regs Reg.MODER &&& 0xFFF0FFFF) ||| 0xA0000),
              (Reg.AFR1, w.regs Reg.AFR1 &&& 0xFFFFFF00),
              (Reg.AFR1, (w.regs Reg.AFR1 &&& 0xFFFFFF00) ||| 0x77),
              (Reg.BRR, 555),
              (Reg.CR1, w.regs Reg.CR1 ||| 4),
              (Reg.CR1, (w.regs Reg.CR1 ||| 4) ||| 8),
              (Reg.CR1, ((w.regs Reg.CR1 ||| 4) ||| 8) ||| 1) ]
      ∧ (∀ (i j : Nat) ri rj, (writtenRegs t)[i]? = some ri → (writtenRegs t)[j]? = some rj →
          ri ∈ [Reg.AHB4ENR, Reg.APB1LENR] → rj ∉ [Reg.AHB4ENR, Reg.APB1LENR] → i < j)
      ∧ (∀ (i j : Nat) ri, (writtenRegs t)[i]? = some ri → (writtenRegs t)[j]? = some Reg.BRR →
          ri ∈ [Reg.MODER, Reg.AFR0, Reg.AFR1] → i < j)
      ∧ (∀ i j : Nat, (writtenRegs t)[i]? = some Reg.BRR → (writtenRegs t)[j]? = some Reg.CR1 →
          i < j)
      ∧ (writesOf t).getLast? = some (Reg.CR1, ((w.regs Reg.CR1 ||| 4) ||| 8) ||| 1)
      ∧ (((w.regs Reg.CR1 ||| 4) ||| 8) ||| 1).testBit 0 = true
      ∧ ((w.regs Reg.CR1 ||| 4) ||| 8).testBit 2 = true
      ∧ ((w.regs Reg.CR1 ||| 4) ||| 8).testBit 3 = true
      ∧ (w.regs Reg.CR1 ||| 4).testBit 0 = (w.regs Reg.CR1).testBit 0
      ∧ ((w.regs Reg.CR1 ||| 4) ||| 8).testBit 0 = (w.regs Reg.CR1).testBit 0 := by
  refine ⟨initTrace w.regs, init_trace w, writesOf_initTrace w.regs, ?_, ?_, ?_, ?_, ?_, ?_,
    ?_, testBit_lor_4 _ 0 (by decide), testBit_lor_4_8 _ 0 (by decide) (by decide)⟩
  · intro i j ri rj hi hj hri hrj
    rw [writtenRegs_initTrace] at hi hj
    have hi' := index_lt_of_getElem? _ i ri hi
    have hj' := index_lt_of_getElem? _ j rj hj
    simp only [List.length_cons, List.length_nil] at hi' hj'
    interval_cases i <;> interval_cases j <;> simp at hi hj <;> subst_vars <;> simp_all
  · intro i j ri hi hj hri
    rw [writtenRegs_initTrace] at hi hj
    have hi' := index_lt_of_getElem? _ i ri hi
    have hj' := index_lt_of_getElem? _ j _ hj
    simp only [List.length_cons, List.length_nil] at hi' hj'
    interval_cases i <;> interval_cases j <;> simp at hi hj <;> subst_vars <;> simp_all
  · intro i j hi hj
    rw [writtenRegs_initTrace] at hi hj
    have hi' := index_lt_of_getElem? _ i _ hi
    have hj' := index_lt_of_getElem? _ j _ hj
    simp only [List.length_cons, List.length_nil] at hi' hj'
    interval_cases i <;> interval_cases j <;> simp_all
  · rw [writesOf_initTrace]; rfl
  · rw [lor_4_8_1, Nat.testBit_lor, testBit_13]; simp
  · rw [show (8 : Nat) = 2 ^ 3 from rfl, testBit_lor_two_pow, show (4 : Nat) = 2 ^ 2 from rfl,
      testBit_lor_two_pow]; simp
  · rw [show (8 : Nat) = 2 ^ 3 from rfl, testBit_lor_two_pow]; simp

/-- C12 (control-register end state): after `UART3_init` CR1 is its old value
or-ed with `0xD`: receiver-enable (bit 2), transmitter-enable (bit 3) and the
enable bit (bit 0) are set and every other bit is as before. -/
theorem C12_control_register (w : World) :
    (UART3_init w).regs Reg.CR1 = w.regs Reg.CR1 ||| 0xD
    ∧ ((UART3_init w).regs Reg.CR1).testBit 2 = true
    ∧ ((UART3_init w).regs Reg.CR1).testBit 3 = true
    ∧ ((UART3_init w).regs Reg.CR1).testBit 0 = true
    ∧ (∀ i, i ≠ 0 → i ≠ 2 → i ≠ 3 →
        ((UART3_init w).regs Reg.CR1).testBit i = (w.regs Reg.CR1).testBit i) := by
  have h : (UART3_init w).regs Reg.CR1 = w.regs Reg.CR1 ||| 0xD := by
    rw [init_regs]; exact lor_4_8_1 _
  refine ⟨h, ?_, ?_, ?_, ?_⟩
  · rw [h, Nat.testBit_lor, testBit_13]; simp
  · rw [h, Nat.testBit_lor, testBit_13]; simp
  · rw [h, Nat.testBit_lor, testBit_13]; simp
  · intro i h0 h2 h3
    rw [h, Nat.testBit_lor, testBit_13]
    simp [h0, h2, h3]

/-! ## Clear before set -/

theorem modeField_cleared (x p : Nat) (hp : p = 8 ∨ p = 9) :
    modeField (x &&& 0xFFF0FFFF) p = 0 := by
  unfold modeField
  apply Nat.eq_of_testBit_eq
  intro i
  simp only [Nat.testBit_land, Nat.testBit_shiftRight, Nat.zero_testBit]
  by_cases hi : i < 2
  · rcases hp with rfl | rfl <;> interval_cases i <;>
      (generalize x.testBit _ = b; cases b <;> decide)
  · simp [testBit_small 3 i 2 (by norm_num) (by omega)]

theorem modeField_clear_other (x p : Nat) (hp : p < 16) (h8 : p ≠ 8) (h9 : p ≠ 9) :
    modeField (x &&& 0xFFF0FFFF) p = modeField x p := by
  unfold modeField
  apply Nat.eq_of_testBit_eq
  intro i
  simp only [Nat.testBit_land, Nat.testBit_shiftRight]
  by_cases hi : i < 2
  · interval_cases p <;> interval_cases i <;>
      first
        | contradiction
        | (generalize x.testBit _ = b; cases b <;> decide)
  · simp [testBit_small 3 i 2 (by norm_num) (by omega)]

theorem afField_cleared (x k : Nat) (hk : k < 2) :
    afField (x &&& 0xFFFFFF00) k = 0 := by
  unfold afField
  apply Nat.eq_of_testBit_eq
  intro i
  simp only [Nat.testBit_land, Nat.testBit_shiftRight, Nat.zero_testBit]
  by_cases hi : i < 4
  · interval_cases k <;> interval_cases i <;>
      (generalize x.testBit _ = b; cases b <;> decide)
  · simp [testBit_small 15 i 4 (by norm_num) (by omega)]

theorem afField_clear_other (x k : Nat) (h2 : 2 ≤ k) (hk : k < 8) :
    afField (x &&& 0xFFFFFF00) k = afField x k := by
  unfold afField
  apply Nat.eq_of_testBit_eq
  intro i
  simp only [Nat.testBit_land, Nat.testBit_shiftRight]
  by_cases hi : i < 4
  · interval_cases k <;> interval_cases i <;>
      (generalize x.testBit _ = b; cases b <;> decide)
  · simp [testBit_small 15 i 4 (by norm_num) (by omega)]

theorem writesTo_initTrace_moder (regs : Reg → Nat) :
    writesTo Reg.MODER (initTrace regs)
      = [regs Reg.MODER &&& 0xFFF0FFFF, (regs Reg.MODER &&& 0xFFF0FFFF) ||| 0xA0000] := by
  simp [writesTo, writesOf_initTrace]

theorem writesTo_initTrace_afr1 (regs : Reg → Nat) :
    writesTo Reg.AFR1 (initTrace regs)
      = [regs Reg.AFR1 &&& 0xFFFFFF00, (regs Reg.AFR1 &&& 0xFFFFFF00) ||| 0x77] := by
  simp [writesTo, writesOf_initTrace]

/-! ## Layout, qualifiers, clear before set: the claims -/

/-- C13 (register layout): with the members laid out as 4-byte words in
declaration order without padding, the registers sit at the documented byte
offsets: RCC AHB4ENR at 0xE0 and APB1LENR at 0xE8; GPIO MODER at 0x00, AFR[0]
at 0x20 and AFR[1] at 0x24; USART CR1 at 0x00, BRR at 0x0C, ISR at 0x1C, RDR
at 0x24 and TDR at 0x28. -/
theorem C13_register_layout :
    byteOffset RCC_TypeDef Reg.AHB4ENR = some 0xE0
    ∧ byteOffset RCC_TypeDef Reg.APB1LENR = some 0xE8
    ∧ byteOffset GPIO_TypeDef Reg.MODER = some 0x00
    ∧ byteOffset GPIO_TypeDef Reg.AFR0 = some 0x20
    ∧ byteOffset GPIO_TypeDef Reg.AFR1 = some 0x24
    ∧ byteOffset USART_TypeDef Reg.CR1 = some 0x00
    ∧ byteOffset USART_TypeDef Reg.BRR = some 0x0C
    ∧ byteOffset USART_TypeDef Reg.ISR = some 0x1C
    ∧ byteOffset USART_TypeDef Reg.RDR = some 0x24
    ∧ byteOffset USART_TypeDef Reg.TDR = some 0x28 := by
  decide

/-- C14, where the code departs from it: `UART3_init` reads and writes
AHB4ENR and APB1LENR, and the members of `RCC_TypeDef` behind them are not
declared `volatile`; every register of `GPIO_TypeDef` and `USART_TypeDef` is
behind a member declared `volatile`. -/
theorem C14_rcc_members_not_volatile (w : World) :
    ∃ t, (UART3_init w).trace = w.trace ++ t
      ∧ Access.read Reg.AHB4ENR (w.regs Reg.AHB4ENR) ∈ t
      ∧ Access.write Reg.AHB4ENR (w.regs Reg.AHB4ENR ||| 8) ∈ t
      ∧ Access.read Reg.APB1LENR (w.regs Reg.APB1LENR) ∈ t
      ∧ Access.write Reg.APB1LENR (w.regs Reg.APB1LENR ||| 0x40000) ∈ t
      ∧ declaredVolatile Reg.AHB4ENR = false
      ∧ declaredVolatile Reg.APB1LENR = false
      ∧ (∀ r, r ≠ Reg.AHB4ENR → r ≠ Reg.APB1LENR → declaredVolatile r = true) := by
  refine ⟨initTrace w.regs, init_trace w, ?_, ?_, ?_, ?_, by decide, by decide, ?_⟩
  · simp [initTrace]
  · simp [initTrace]
  · simp [initTrace]
  · simp [initTrace]
  · intro r h1 h2
    cases r <;> first | contradiction | decide

/-- C16 (clear before set): in `UART3_init` the words written to MODER are,
first, the old word with the mode fields of pins 8 and 9 cleared to 0 and every
other mode field as it was, and then that word with the two fields set to 2;
the words written to AFR[1] are, first, the old word with the function fields
of pins 8 and 9 (fields 0 and 1) cleared to 0 and fields 2 to 7 as they were,
and then that word with the two fields set to 7.  This holds whatever the
registers held before. -/
theorem C16_clear_before_set (w : World) :
    ∃ t m1 m2 f1 f2, (UART3_init w).trace = w.trace ++ t
      ∧ writesTo Reg.MODER t = [m1, m2]
      ∧ writesTo Reg.AFR1 t = [f1, f2]
      ∧ modeField m1 8 = 0 ∧ modeField m1 9 = 0
      ∧ (∀ p, p < 16 → p ≠ 8 → p ≠ 9 → modeField m1 p = modeField (w.regs Reg.MODER) p)
      ∧ modeField m2 8 = 2 ∧ modeField m2 9 = 2
      ∧ (∀ p, p < 16 → p ≠ 8 → p ≠ 9 → modeField m2 p = modeField (w.regs Reg.MODER) p)
      ∧ afField f1 0 = 0 ∧ afField f1 1 = 0
      ∧ (∀ k, 2 ≤ k → k < 8 → afField f1 k = afField (w.regs Reg.AFR1) k)
      ∧ afField f2 0 = 7 ∧ afField f2 1 = 7
      ∧ (∀ k, 2 ≤ k → k < 8 → afField f2 k = afField (w.regs Reg.AFR1) k) :=
  ⟨initTrace w.regs, _, _, _, _, init_trace w,
    writesTo_initTrace_moder w.regs, writesTo_initTrace_afr1 w.regs,
    modeField_cleared _ 8 (Or.inl rfl), modeField_cleared _ 9 (Or.inr rfl),
    fun p hp h8 h9 => modeField_clear_other _ p hp h8 h9,
    modeField_tx_rx _ 8 (Or.inl rfl), modeField_tx_rx _ 9 (Or.inr rfl),
    fun p hp h8 h9 => modeField_other _ p hp h8 h9,
    afField_cleared _ 0 (by norm_num), afField_cleared _ 1 (by norm_num),
    fun k h2 hk => afField_clear_other _ k h2 hk,
    afField_tx_rx _ 0 (by norm_num), afField_tx_rx _ 1 (by norm_num),
    fun k h2 hk => afField_other _ k h2 hk⟩

/-! ## Status bits other than the flag -/

theorem eraseIsr_append (a b : List Access) : eraseIsr (a ++ b) = eraseIsr a ++ eraseIsr b := by
  simp [eraseIsr]

theorem eraseIsr_length (t : List Access) : (eraseIsr t).length = t.length := by
  simp [eraseIsr]

theorem isrReads_eraseIsr (t : List Access) :
    isrReads (eraseIsr t) = (isrReads t).map (fun _ => 0) := by
  induction t with
  | nil => rfl
  | cons a t ih =>
    cases a with
    | read r v =>
      cases r <;> simpa [eraseIsr, isrReads, Access.eraseIsr] using ih
    | write r v =>
      cases r <;> simpa [eraseIsr, isrReads, Access.eraseIsr] using ih

theorem writesOf_eraseIsr (t : List Access) : writesOf (eraseIsr t) = writesOf t := by
  induction t with
  | nil => rfl
  | cons a t ih =>
    cases a with
    | read r v =>
      cases r <;> simpa [eraseIsr, writesOf, Access.eraseIsr] using ih
    | write r v =>
      cases r <;> simpa [eraseIsr, writesOf, Access.eraseIsr] using ih

theorem rdrReads_eraseIsr (t : List Access) : rdrReads (eraseIsr t) = rdrReads t := by
  induction t with
  | nil => rfl
  | cons a t ih =>
    cases a with
    | read r v =>
      cases r <;> simpa [eraseIsr, rdrReads, Access.eraseIsr] using ih
    | write r v =>
      cases r <;> simpa [eraseIsr, rdrReads, Access.eraseIsr] using ih

/-- The busy-wait loop on status words that agree on the flag: both runs end
the same way, on machines that still agree. -/
theorem waitFlag_agree (k : Nat) (l1 l2 : List Nat) (w1 w2 : World)
    (hl : l1.map (fun v => v.testBit k) = l2.map (fun v => v.testBit k))
    (hr : w1.regs = w2.regs) (hd : w1.rdr = w2.rdr)
    (ht : eraseIsr w1.trace = eraseIsr w2.trace) :
    (∃ u1 u2, waitFlag (1 <<< k) l1 w1 = Outcome.returned () u1
        ∧ waitFlag (1 <<< k) l2 w2 = Outcome.returned () u2 ∧ AgreeOn k u1 u2)
    ∨ (∃ u1 u2, waitFlag (1 <<< k) l1 w1 = Outcome.spinning u1
        ∧ waitFlag (1 <<< k) l2 w2 = Outcome.spinning u2 ∧ AgreeOn k u1 u2) := by
  induction l1 generalizing l2 w1 w2 with
  | nil =>
    have : l2 = [] := by simpa using hl.symm
    subst this
    right
    exact ⟨_, _, rfl, rfl, hr, hd, ht, rfl⟩
  | cons a l1 ih =>
    cases l2 with
    | nil => simp at hl
    | cons b l2 =>
      simp only [List.map_cons, List.cons.injEq] at hl
      obtain ⟨hab, hl⟩ := hl
      have ht' : eraseIsr (w1.trace ++ [Access.read Reg.ISR a])
          = eraseIsr (w2.trace ++ [Access.read Reg.ISR b]) := by
        rw [eraseIsr_append, eraseIsr_append, ht]
        rfl
      cases hbit : a.testBit k with
      | false =>
        have ha : a &&& (1 <<< k) = 0 := (land_flag_eq_zero_iff a k).2 hbit
        have hb : b &&& (1 <<< k) = 0 := (land_flag_eq_zero_iff b k).2 (by rw [← hab, hbit])
        rw [waitFlag, waitFlag]
        simp only [ha, hb, if_true]
        exact ih l2 _ _ hl hr hd ht'
      | true =>
        have ha : ¬ a &&& (1 <<< k) = 0 := by
          rw [land_flag_eq_zero_iff]; simp [hbit]
        have hb : ¬ b &&& (1 <<< k) = 0 := by
          rw [land_flag_eq_zero_iff, ← hab]; simp [hbit]
        rw [waitFlag, waitFlag]
        simp only [ha, hb, if_false]
        left
        exact ⟨_, _, rfl, rfl, hr, hd, ht', hl⟩

/-- The accesses of `UART3_send_char`, and whether it returns, depend on the
status words through bit 7 only. -/
theorem send_char_agree (c : Nat) (w : World) (l1 l2 : List Nat)
    (hl : l1.map (fun v => v.testBit 7) = l2.map (fun v => v.testBit 7)) :
    (UART3_send_char c { w with isr := l1 }).isReturned
        = (UART3_send_char c { w with isr := l2 }).isReturned
    ∧ (UART3_send_char c { w with isr := l1 }).val?
        = (UART3_send_char c { w with isr := l2 }).val?
    ∧ AgreeOn 7 (UART3_send_char c { w with isr := l1 }).world
        (UART3_send_char c { w with isr := l2 }).world := by
  unfold UART3_send_char
  rcases waitFlag_agree 7 l1 l2 { w with isr := l1 } { w with isr := l2 } hl rfl rfl rfl with
    ⟨u1, u2, e1, e2, hr, hd, ht, hi⟩ | ⟨u1, u2, e1, e2, hr, hd, ht, hi⟩
  · rw [e1, e2]
    refine ⟨rfl, rfl, ?_, hd, ?_, hi⟩
    · show setReg u1.regs Reg.TDR c = setReg u2.regs Reg.TDR c
      rw [hr]
    · show eraseIsr (u1.trace ++ _) = eraseIsr (u2.trace ++ _)
      rw [eraseIsr_append, eraseIsr_append, ht]
  · rw [e1, e2]
    exact ⟨rfl, rfl, hr, hd, ht, hi⟩

/-- The accesses of `UART3_receive_char`, whether it returns and what it
returns depend on the status words through bit 5 only. -/
theorem receive_char_agree (w : World) (l1 l2 : List Nat)
    (hl : l1.map (fun v => v.testBit 5) = l2.map (fun v => v.testBit 5)) :
    (UART3_receive_char { w with isr := l1 }).isReturned
        = (UART3_receive_char { w with isr := l2 }).isReturned
    ∧ (UART3_receive_char { w with isr := l1 }).val?
        = (UART3_receive_char { w with isr := l2 }).val?
    ∧ AgreeOn 5 (UART3_receive_char { w with isr := l1 }).world
        (UART3_receive_char { w with isr := l2 }).world := by
  unfold UART3_receive_char
  rcases waitFlag_agree 5 l1 l2 { w with isr := l1 } { w with isr := l2 } hl rfl rfl rfl with
    ⟨u1, u2, e1, e2, hr, hd, ht, hi⟩ | ⟨u1, u2, e1, e2, hr, hd, ht, hi⟩
  · rw [e1, e2]
    refine ⟨rfl, ?_, hr, ?_, ?_, hi⟩
    · show some (u1.rdr 0 % 256) = some (u2.rdr 0 % 256)
      rw [hd]
    · show (fun k => u1.rdr (k + 1)) = fun k => u2.rdr (k + 1)
      rw [hd]
    · show eraseIsr (u1.trace ++ [Access.read Reg.RDR (u1.rdr 0)])
        = eraseIsr (u2.trace ++ [Access.read Reg.RDR (u2.rdr 0)])
      rw [eraseIsr_append, eraseIsr_append, ht, hd]
  · rw [e1, e2]
    exact ⟨rfl, rfl, hr, hd, ht, hi⟩

theorem polls_count_of_erase (t1 t2 : List Access) (h : eraseIsr t1 = eraseIsr t2) :
    (isrReads t1).length = (isrReads t2).length := by
  have := congrArg (fun t => (isrReads t).length) h
  simpa [isrReads_eraseIsr] using this

/-- C17 (fault flags are ignored): take two runs from the same machine on
status words that agree on bit 7, position by position, and differ freely in
every other bit.  The two runs of `UART3_send_char` either both return or both
keep spinning, they poll `ISR` the same number of times, their traces are the
same once the status words read are blanked out (same accesses to the same
registers in the same order, same words written), and they leave the same
register contents.  The same holds for `UART3_receive_char` and bit 5, and the
two runs return the same character. -/
theorem C17_fault_flags_ignored (c : Nat) (w : World) :
    (∀ l1 l2 : List Nat,
        l1.map (fun v => v.testBit 7) = l2.map (fun v => v.testBit 7) →
        (UART3_send_char c { w with isr := l1 }).isReturned
            = (UART3_send_char c { w with isr := l2 }).isReturned
        ∧ (isrReads (UART3_send_char c { w with isr := l1 }).world.trace).length
            = (isrReads (UART3_send_char c { w with isr := l2 }).world.trace).length
        ∧ eraseIsr (UART3_send_char c { w with isr := l1 }).world.trace
            = eraseIsr (UART3_send_char c { w with isr := l2 }).world.trace
        ∧ writesOf (UART3_send_char c { w with isr := l1 }).world.trace
            = writesOf (UART3_send_char c { w with isr := l2 }).world.trace
        ∧ (UART3_send_char c { w with isr := l1 }).world.regs
            = (UART3_send_char c { w with isr := l2 }).world.regs)
    ∧ (∀ l1 l2 : List Nat,
        l1.map (fun v => v.testBit 5) = l2.map (fun v => v.testBit 5) →
        (UART3_receive_char { w with isr := l1 }).isReturned
            = (UART3_receive_char { w with isr := l2 }).isReturned
        ∧ (UART3_receive_char { w with isr := l1 }).val?
            = (UART3_receive_char { w with isr := l2 }).val?
        ∧ (isrReads (UART3_receive_char { w with isr := l1 }).world.trace).length
            = (isrReads (UART3_receive_char { w with isr := l2 }).world.trace).length
        ∧ eraseIsr (UART3_receive_char { w with isr := l1 }).world.trace
            = eraseIsr (UART3_receive_char { w with isr := l2 }).world.trace
        ∧ rdrReads (UART3_receive_char { w with isr := l1 }).world.trace
            = rdrReads (UART3_receive_char { w with isr := l2 }).world.trace
        ∧ (UART3_receive_char { w with isr := l1 }).world.regs
            = (UART3_receive_char { w with isr := l2 }).world.regs) := by
  constructor
  · intro l1 l2 hl
    obtain ⟨h1, _, hr, _, ht, _⟩ := send_char_agree c w l1 l2 hl
    refine ⟨h1, polls_count_of_erase _ _ ht, ht, ?_, hr⟩
    rw [← writesOf_eraseIsr, ht, writesOf_eraseIsr]
  · intro l1 l2 hl
    obtain ⟨h1, h2, hr, _, ht, _⟩ := receive_char_agree w l1 l2 hl
    refine ⟨h1, h2, polls_count_of_erase _ _ ht, ht, ?_, hr⟩
    rw [← rdrReads_eraseIsr, ht, rdrReads_eraseIsr]

/-! ## Truncation to a character -/

theorem testBit_mod_256 (r i : Nat) :
    (r % 256).testBit i = (decide (i < 8) && r.testBit i) := by
  rw [show (256 : Nat) = 2 ^ 8 from rfl, Nat.testBit_mod_two_pow]

/-- C18 (receive truncates to 8 bits): when receive-not-empty shows,
`UART3_receive_char` returns the word in `RDR` modulo 256: bits 0 to 7 of the
character are those of the word, bits 8 and up are dropped, and the character
equals the word exactly when the word is below 256.  In the echo loop the word
then written to `TDR` is that character, whose low 8 bits are the word modulo
256. -/
theorem C18_receive_truncates (w : World) (pre : List Nat) (v : Nat) (rest : List Nat)
    (hpre : ∀ x ∈ pre, x.testBit 5 = false) (hv : v.testBit 5 = true) :
    (UART3_receive_char { w with isr := pre ++ v :: rest }).val? = some (w.rdr 0 % 256)
    ∧ (∀ i, i < 8 → (w.rdr 0 % 256).testBit i = (w.rdr 0).testBit i)
    ∧ (∀ i, 8 ≤ i → (w.rdr 0 % 256).testBit i = false)
    ∧ (w.rdr 0 % 256 = w.rdr 0 ↔ w.rdr 0 < 256)
    ∧ (∀ pre2 v2 rest2, rest = pre2 ++ v2 :: rest2 →
        (∀ x ∈ pre2, x.testBit 7 = false) → v2.testBit 7 = true →
        ∃ t, (echoLoop 1 { w with isr := pre ++ v :: rest }).trace = w.trace ++ t
          ∧ rdrReads t = [w.rdr 0]
          ∧ tdrWrites t = [w.rdr 0 % 256]
          ∧ (w.rdr 0 % 256) % 256 = w.rdr 0 % 256) := by
  refine ⟨?_, ?_, ?_, ?_, ?_⟩
  · rw [receive_char_hit w pre v rest hpre hv]; rfl
  · intro i hi
    rw [testBit_mod_256]; simp [hi]
  · intro i hi
    rw [testBit_mod_256]
    have : ¬ i < 8 := by omega
    simp [this]
  · constructor
    · intro h
      rw [← h]
      exact Nat.mod_lt _ (by norm_num)
    · exact Nat.mod_eq_of_lt
  · rintro pre2 v2 rest2 rfl hpre2 hv2
    refine ⟨(polls pre ++ [Access.read Reg.ISR v, Access.read Reg.RDR (w.rdr 0)])
      ++ (polls pre2 ++ [Access.read Reg.ISR v2, Access.write Reg.TDR (w.rdr 0 % 256)]),
      ?_, ?_, ?_, Nat.mod_mod _ _⟩
    · rw [echoLoop, receive_char_hit w pre v _ hpre hv]
      simp only
      rw [send_char_at (w.rdr 0 % 256) _ pre2 v2 rest2 rfl hpre2 hv2]
      simp [echoLoop]
    · simp only [rdrReads_append, rdrReads_polls]
      rfl
    · simp only [tdrWrites_append, tdrWrites_polls]
      rfl

/-! ## Write footprint -/

theorem writtenRegs_of_onlyPollsAndSends (t : List Access) (h : OnlyPollsAndSends t) :
    ∀ r ∈ writtenRegs t, r = Reg.TDR := by
  intro r hr
  simp only [writtenRegs, writesOf, List.mem_map, List.mem_filterMap] at hr
  obtain ⟨⟨r', v⟩, ⟨a, ha, hf⟩, rfl⟩ := hr
  rcases h a ha with ⟨x, rfl⟩ | ⟨c, rfl⟩
  · simp at hf
  · simp at hf
    exact hf.1.symm

theorem rdrReads_of_onlyPollsAndSends (t : List Access) (h : OnlyPollsAndSends t) :
    rdrReads t = [] := by
  induction t with
  | nil => rfl
  | cons a t ih =>
    have ht : OnlyPollsAndSends t := fun x hx => h x (List.mem_cons_of_mem _ hx)
    rcases h a (List.mem_cons_self _ _) with ⟨x, rfl⟩ | ⟨c, rfl⟩
    · simpa [rdrReads] using ih ht
    · simpa [rdrReads] using ih ht

/-- The accesses of one call of `UART3_send_char` and the registers it leaves. -/
theorem send_char_footprint (c : Nat) (w : World) :
    ∃ t, (UART3_send_char c w).world.trace = w.trace ++ t
      ∧ OnlyPollsAndSends t
      ∧ ∀ r, r ≠ Reg.TDR → (UART3_send_char c w).world.regs r = w.regs r := by
  rcases send_char_cases c w with ⟨_, e⟩ | ⟨pre, v, rest, _, _, _, e⟩
  · rw [e]
    exact ⟨polls w.isr, rfl, onlyPollsAndSends_polls _, fun r _ => rfl⟩
  · rw [e]
    refine ⟨polls pre ++ [Access.read Reg.ISR v, Access.write Reg.TDR c], ?_, ?_, ?_⟩
    · simp [Outcome.world]
    · apply onlyPollsAndSends_append _ _ (onlyPollsAndSends_polls pre)
      intro a ha
      rcases List.mem_cons.1 ha with rfl | ha
      · exact Or.inl ⟨v, rfl⟩
      rcases List.mem_cons.1 ha with rfl | ha
      · exact Or.inr ⟨c, rfl⟩
      · simp at ha
    · intro r hr
      simp [Outcome.world, setReg, hr]

/-- `UART3_send_string` changes no register but `TDR`. -/
theorem send_string_regs (str : List Nat) (w : World) :
    ∀ r, r ≠ Reg.TDR → (UART3_send_string str w).world.regs r = w.regs r := by
  induction str generalizing w with
  | nil => intro r _; rfl
  | cons c rest ih =>
    intro r hr
    by_cases hc : c = 0
    · subst hc; rw [send_string_zero]; rfl
    · rw [send_string_cons c rest w hc]
      obtain ⟨_, _, _, hregs⟩ := send_char_footprint c w
      cases hout : UART3_send_char c w with
      | returned u w1 =>
        rw [hout] at hregs
        simp only
        rw [ih w1 r hr]
        exact hregs r hr
      | spinning w1 =>
        rw [hout] at hregs
        exact hregs r hr
      | fault w1 =>
        rw [hout] at hregs
        exact hregs r hr

/-- The accesses of one call of `UART3_receive_char` and the registers it
leaves. -/
theorem receive_char_footprint (w : World) :
    ∃ t, (UART3_receive_char w).world.trace = w.trace ++ t
      ∧ writesOf t = []
      ∧ (UART3_receive_char w).world.regs = w.regs := by
  rcases receive_char_cases w with ⟨_, e⟩ | ⟨pre, v, rest, _, _, _, e⟩
  · rw [e]
    exact ⟨polls w.isr, rfl, writesOf_polls _, rfl⟩
  · rw [e]
    refine ⟨polls pre ++ [Access.read Reg.ISR v, Access.read Reg.RDR (w.rdr 0)], ?_, ?_, rfl⟩
    · simp [Outcome.world]
    · rw [writesOf_polls_append]; rfl

/-- C19 (write footprint): `UART3_init` writes AHB4ENR, APB1LENR, MODER, AFR[1],
BRR and CR1 and no other register, and leaves AFR[0], ISR, RDR and TDR as they
were.  `UART3_send_char` and `UART3_send_string` write no register but TDR and
leave every other register, the configuration registers in particular, as it
was.  `UART3_receive_char` writes no register and leaves every register as it
was. -/
theorem C19_write_footprint (w : World) (c : Nat) (str : List Nat) :
    (∃ t, (UART3_init w).trace = w.trace ++ t
        ∧ (∀ r, r ∈ writtenRegs t ↔
            r ∈ [Reg.AHB4ENR, Reg.APB1LENR, Reg.MODER, Reg.AFR1, Reg.BRR, Reg.CR1])
        ∧ Reg.AFR0 ∉ writtenRegs t ∧ Reg.ISR ∉ writtenRegs t
        ∧ Reg.RDR ∉ writtenRegs t ∧ Reg.TDR ∉ writtenRegs t
        ∧ (UART3_init w).regs Reg.AFR0 = w.regs Reg.AFR0
        ∧ (UART3_init w).regs Reg.ISR = w.regs Reg.ISR
        ∧ (UART3_init w).regs Reg.RDR = w.regs Reg.RDR
        ∧ (UART3_init w).regs Reg.TDR = w.regs Reg.TDR)
    ∧ (∃ t, (UART3_send_char c w).world.trace = w.trace ++ t
        ∧ (∀ r ∈ writtenRegs t, r = Reg.TDR)
        ∧ ∀ r, r ≠ Reg.TDR → (UART3_send_char c w).world.regs r = w.regs r)
    ∧ (∃ t, (UART3_send_string str w).world.trace = w.trace ++ t
        ∧ (∀ r ∈ writtenRegs t, r = Reg.TDR)
        ∧ ∀ r, r ≠ Reg.TDR → (UART3_send_string str w).world.regs r = w.regs r)
    ∧ (∃ t, (UART3_receive_char w).world.trace = w.trace ++ t
        ∧ writesOf t = []
        ∧ (UART3_receive_char w).world.regs = w.regs) := by
  refine ⟨⟨initTrace w.regs, init_trace w, ?_, ?_, ?_, ?_, ?_, ?_, ?_, ?_, ?_⟩, ?_, ?_,
    receive_char_footprint w⟩
  · intro r
    rw [writtenRegs_initTrace]
    cases r <;> simp
  · rw [writtenRegs_initTrace]; decide
  · rw [writtenRegs_initTrace]; decide
  · rw [writtenRegs_initTrace]; decide
  · rw [writtenRegs_initTrace]; decide
  · rw [init_regs]
  · rw [init_regs]
  · rw [init_regs]
  · rw [init_regs]
  · obtain ⟨t, ht, ho, hr⟩ := send_char_footprint c w
    exact ⟨t, ht, writtenRegs_of_onlyPollsAndSends t ho, hr⟩
  · obtain ⟨t, ht, _, _, ho, _, _⟩ := send_string_run str w
    exact ⟨t, ht, writtenRegs_of_onlyPollsAndSends t ho, send_string_regs str w⟩

/-! ## The reference application -/

/-- Whatever the status words, each word the echo loop writes to `TDR` is the
character of the word it read from `RDR` just before: the writes follow the
reads one for one, at most the last read still waiting for its write. -/
theorem echo_any (fuel : Nat) (w : World) :
    ∃ t, (echoLoop fuel w).trace = w.trace ++ t
      ∧ tdrWrites t <+: (rdrReads t).map (fun r => r % 256)
      ∧ (rdrReads t).length ≤ (tdrWrites t).length + 1 := by
  induction fuel generalizing w with
  | zero => exact ⟨[], by simp [echoLoop], by simp [tdrWrites, rdrReads], by simp [rdrReads]⟩
  | succ n ih =>
    rcases receive_char_cases w with ⟨_, e⟩ | ⟨pre, v, rest, _, _, _, e⟩
    · refine ⟨polls w.isr, ?_, ?_, ?_⟩
      · rw [echoLoop, e]; rfl
      · rw [tdrWrites_polls]; exact List.nil_prefix
      · rw [rdrReads_polls]; simp
    · rcases send_char_cases (w.rdr 0 % 256)
          { w with isr := rest, rdr := fun k => w.rdr (k + 1),
                   trace := w.trace ++ polls pre
                     ++ [Access.read Reg.ISR v, Access.read Reg.RDR (w.rdr 0)] } with
        ⟨_, e2⟩ | ⟨pre2, v2, rest2, _, _, _, e2⟩
      · refine ⟨(polls pre ++ [Access.read Reg.ISR v, Access.read Reg.RDR (w.rdr 0)])
          ++ polls rest, ?_, ?_, ?_⟩
        · rw [echoLoop, e]
          simp only
          rw [e2]
          simp [Outcome.world]
        · simp only [tdrWrites_append, tdrWrites_polls]
          exact List.nil_prefix
        · simp only [rdrReads_append, rdrReads_polls, tdrWrites_append, tdrWrites_polls]
          simp [rdrReads, tdrWrites]
      · obtain ⟨t, ht, hp, hlen⟩ := ih
          { w with regs := setReg w.regs Reg.TDR (w.rdr 0 % 256), isr := rest2,
                   rdr := fun k => w.rdr (k + 1),
                   trace := (w.trace ++ polls pre
                       ++ [Access.read Reg.ISR v, Access.read Reg.RDR (w.rdr 0)])
                     ++ polls pre2
                     ++ [Access.read Reg.ISR v2, Access.write Reg.TDR (w.rdr 0 % 256)] }
        have hr : rdrReads ((polls pre ++ [Access.read Reg.ISR v, Access.read Reg.RDR (w.rdr 0)])
              ++ (polls pre2 ++ [Access.read Reg.ISR v2, Access.write Reg.TDR (w.rdr 0 % 256)])
              ++ t) = w.rdr 0 :: rdrReads t := by
          simp only [rdrReads_append, rdrReads_polls]
          rfl
        have hw : tdrWrites ((polls pre ++ [Access.read Reg.ISR v, Access.read Reg.RDR (w.rdr 0)])
              ++ (polls pre2 ++ [Access.read Reg.ISR v2, Access.write Reg.TDR (w.rdr 0 % 256)])
              ++ t) = (w.rdr 0 % 256) :: tdrWrites t := by
          simp only [tdrWrites_append, tdrWrites_polls]
          rfl
        refine ⟨(polls pre ++ [Access.read Reg.ISR v, Access.read Reg.RDR (w.rdr 0)])
          ++ (polls pre2 ++ [Access.read Reg.ISR v2, Access.write Reg.TDR (w.rdr 0 % 256)])
          ++ t, ?_, ?_, ?_⟩
        · rw [echoLoop, e]
          simp only
          rw [e2]
          simp only
          rw [ht]
          simp only [List.append_assoc]
        · rw [hr, hw, List.map_cons]
          exact (List.prefix_cons_inj _).2 hp
        · rw [hr, hw]
          simp only [List.length_cons]
          omega

theorem greeting_split : greeting = greetingChars ++ 0 :: [] := rfl

theorem tdrWrites_initTrace (regs : Reg → Nat) : tdrWrites (initTrace regs) = [] := by
  simp [initTrace, tdrWrites]

theorem rdrReads_initTrace (regs : Reg → Nat) : rdrReads (initTrace regs) = [] := by
  simp [initTrace, rdrReads]

theorem isrReads_initTrace (regs : Reg → Nat) : isrReads (initTrace regs) = [] := by
  simp [initTrace, isrReads]

/-- C15 (reference application order): when transmit-empty shows at least
thirteen times among the status words to come, the trace of `main` is the
accesses of `UART3_init` (none of them to ISR, RDR or TDR), then the accesses
of one `UART3_send_string` of the greeting, which are polls of ISR and writes
to TDR of the 13 bytes of `"Hello IEE4!\r\n"` in order, and then the accesses
of the echo loop.  `RDR` is not read before the echo loop, the words written to
`TDR` are the greeting followed by those of the echo loop, and each of the
latter is the character of the word read from `RDR` just before it. -/
theorem C15_reference_application_order (fuel : Nat) (w : World)
    (hflags : 13 ≤ w.isr.countP (fun v => v.testBit 7)) :
    ∃ tG tE, (main fuel w).trace = w.trace ++ initTrace w.regs ++ tG ++ tE
      ∧ (UART3_init w).trace = w.trace ++ initTrace w.regs
      ∧ tdrWrites (initTrace w.regs) = [] ∧ rdrReads (initTrace w.regs) = []
      ∧ isrReads (initTrace w.regs) = []
      ∧ (∀ a ∈ tG, (∃ v, a = Access.read Reg.ISR v) ∨ ∃ c, a = Access.write Reg.TDR c)
      ∧ tdrWrites tG = greetingChars
      ∧ greetingChars.length = 13
      ∧ rdrReads (initTrace w.regs ++ tG) = []
      ∧ tdrWrites (initTrace w.regs ++ tG ++ tE) = greetingChars ++ tdrWrites tE
      ∧ tdrWrites tE <+: (rdrReads tE).map (fun r => r % 256)
      ∧ (rdrReads tE).length ≤ (tdrWrites tE).length + 1 := by
  obtain ⟨tG, htG, _, _, ho, _, hr⟩ := send_string_run greeting (UART3_init w)
  have hret : (UART3_send_string greeting (UART3_init w)).isReturned = true := by
    rw [greeting_split]
    apply send_string_returns greetingChars [] (UART3_init w) (by decide)
    rw [init_isr]
    exact hflags
  cases hout : UART3_send_string greeting (UART3_init w) with
  | spinning w1 => rw [hout] at hret; cases hret
  | fault w1 => rw [hout] at hret; cases hret
  | returned u w1 =>
    rw [hout] at htG hr
    have hG : tdrWrites tG = greetingChars := (hr rfl).1
    obtain ⟨tE, htE, hp, hlen⟩ := echo_any fuel w1
    have hrG : rdrReads tG = [] := rdrReads_of_onlyPollsAndSends tG ho
    refine ⟨tG, tE, ?_, init_trace w, tdrWrites_initTrace _, rdrReads_initTrace _,
      isrReads_initTrace _, ho, hG, rfl, ?_, ?_, hp, hlen⟩
    · have hm : main fuel w = echoLoop fuel w1 := by
        simp only [main, hout]
      rw [hm, htE]
      have : w1.trace = (UART3_init w).trace ++ tG := htG
      rw [this, init_trace]
    · rw [rdrReads_append, rdrReads_initTrace, hrG]; rfl
    · rw [tdrWrites_append, tdrWrites_append, tdrWrites_initTrace, hG]; rfl

/-! ## More claims at sample inputs -/

/-- C15 at the sample machine with thirteen ready polls ahead, two passes of
the loop. -/
theorem C15_reference_application_order_witness :
    13 ≤ greetingWorld.isr.countP (fun v => v.testBit 7)
    ∧ ∃ tG tE, (main 2 greetingWorld).trace
          = greetingWorld.trace ++ initTrace greetingWorld.regs ++ tG ++ tE
        ∧ tdrWrites tG = greetingChars
        ∧ rdrReads (initTrace greetingWorld.regs ++ tG) = []
        ∧ tdrWrites (initTrace greetingWorld.regs ++ tG ++ tE)
            = greetingChars ++ tdrWrites tE :=
  ⟨by decide,
    let ⟨tG, tE, h1, _, _, _, _, _, h7, _, h9, h10, _⟩ :=
      C15_reference_application_order 2 greetingWorld (by decide)
    ⟨tG, tE, h1, h7, h9, h10⟩⟩

/-- C16 at the sample machine, whose mode and function fields are all ones
beforehand: or-ing the codes into the old words would leave 3 and 15 in the
fields, the two writes of `UART3_init` leave 0 and then 2, 0 and then 7. -/
theorem C16_clear_before_set_witness :
    modeField (sampleWorld.regs Reg.MODER ||| 0xA0000) 8 = 3
    ∧ afField (sampleWorld.regs Reg.AFR1 ||| 0x77) 0 = 15
    ∧ ∃ t m1 m2 f1 f2, (UART3_init sampleWorld).trace = sampleWorld.trace ++ t
        ∧ writesTo Reg.MODER t = [m1, m2]
        ∧ writesTo Reg.AFR1 t = [f1, f2]
        ∧ modeField m1 8 = 0 ∧ modeField m2 8 = 2
        ∧ afField f1 0 = 0 ∧ afField f2 0 = 7 :=
  ⟨by decide, by decide,
    let ⟨t, m1, m2, f1, f2, ht, hm, hf, a1, _, _, a2, _, _, b1, _, _, b2, _, _⟩ :=
      C16_clear_before_set sampleWorld
    ⟨t, m1, m2, f1, f2, ht, hm, hf, a1, a2, b1, b2⟩⟩

/-- C17 for status words with and without the low four bits set. -/
theorem C17_fault_flags_ignored_witness :
    [0x00, 0x20, 0x80].map (fun v => v.testBit 7)
        = [0x0F, 0x2F, 0x8F].map (fun v => v.testBit 7)
    ∧ (UART3_send_char 65 { sampleWorld with isr := [0x00, 0x20, 0x80] }).isReturned
        = (UART3_send_char 65 { sampleWorld with isr := [0x0F, 0x2F, 0x8F] }).isReturned
    ∧ eraseIsr (UART3_send_char 65 { sampleWorld with isr := [0x00, 0x20, 0x80] }).world.trace
        = eraseIsr (UART3_send_char 65 { sampleWorld with isr := [0x0F, 0x2F, 0x8F] }).world.trace :=
  ⟨by decide,
    ((C17_fault_flags_ignored 65 sampleWorld).1 [0x00, 0x20, 0x80] [0x0F, 0x2F, 0x8F]
      (by decide)).1,
    ((C17_fault_flags_ignored 65 sampleWorld).1 [0x00, 0x20, 0x80] [0x0F, 0x2F, 0x8F]
      (by decide)).2.2.1⟩

/-- C18 at the machine whose `RDR` holds `0x141`: the character returned and
echoed is `0x41`. -/
theorem C18_receive_truncates_witness :
    (∀ x ∈ [0x00, 0x80], x.testBit 5 = false) ∧ Nat.testBit 0x20 5 = true
    ∧ (UART3_receive_char
          { wideRdrWorld with isr := [0x00, 0x80] ++ 0x20 :: ([0x00] ++ 0x80 :: []) }).val?
        = some (wideRdrWorld.rdr 0 % 256)
    ∧ wideRdrWorld.rdr 0 % 256 = 0x41
    ∧ ∃ t, (echoLoop 1
              { wideRdrWorld with
                  isr := [0x00, 0x80] ++ 0x20 :: ([0x00] ++ 0x80 :: []) }).trace
            = wideRdrWorld.trace ++ t
        ∧ rdrReads t = [wideRdrWorld.rdr 0]
        ∧ tdrWrites t = [wideRdrWorld.rdr 0 % 256] :=
  have h := C18_receive_truncates wideRdrWorld [0x00, 0x80] 0x20 ([0x00] ++ 0x80 :: [])
    (by decide) (by decide)
  ⟨by decide, by decide, h.1, by decide,
    let ⟨t, h1, h2, h3, _⟩ := h.2.2.2.2 [0x00] 0x80 [] rfl (by decide) (by decide)
    ⟨t, h1, h2, h3⟩⟩

end UartDriver
